import Mathlib

/-!
# Verification of the StickerSearch incremental indexer and vector search engine

This file shallowly embeds the algorithmic core of the repository:

* `image_search_core/indexer.py` — `ImageIndexer._scan_and_compare`,
  `ImageIndexer._process_changes`, `ImageIndexer.update`, `ImageIndexer._save_index`;
* `image_search_core/searcher.py` — `ImageSearcher.search`, `ImageSearcher.search_by_image`.

Modelling conventions:

* Paths, hashes and feature vectors are type parameters `P`, `H`, `V` for the indexer
  (the Python code only compares them for equality); the searcher uses `String` paths
  and `List ℚ` vectors (exact rational arithmetic in place of floats).
* `calculate_hash` (utils.py) returns `None` on an unreadable file; it is modelled as a
  function `hashOf : P → Option H` supplied by the environment.  Likewise the embedder
  (model + processor) is `embed : P → Option V`, `none` meaning the per-file pipeline
  failed and the file is skipped with a warning.
* Python `dict`s are modelled as association lists built with last-write-wins insertion
  (`dinsert` / `pyDict`) and first-match lookup on the deduplicated list (`pyGet`),
  which is exactly Python's dict semantics.
* Python `set` iteration order is unspecified; sets are modelled as the lists the code
  derives them from (filters of the disk scan / index order).  The claims proved below
  do not depend on that order.
* `torch.topk(values, k)` returns the `k` largest entries in descending score order;
  ties are modelled as broken by ascending original row index (a deterministic stable
  refinement of torch's unspecified tie order).
* `F.normalize(v)` divides by the (generally irrational) L2 norm.  It is modelled as
  multiplication by a scalar parameter (`cpos`, `cneg`) standing for `1 / ‖v‖`; the
  parameter is positive and shared across all uses of the same query vector, which is
  all the ranking-level claims depend on.
* Declared idealization of tensor shapes: for a corpus with **exactly one** entry,
  `.squeeze()` (searcher.py lines 66, 113) produces a 0-dim tensor and the real
  program then fails on `indices[offset:]` (line 92, IndexError) resp. on iterating
  the 0-d arrays (line 140, TypeError).  The model treats `final_scores` as a
  length-`n` row for every `n`, so `search`/`search_by_image` are faithful to the
  program for `n ≠ 1` and on every path that returns before the score math (the
  `top_k`/empty-query guards, the unknown-path `ValueError`).  All concrete
  counterexamples and witnesses that exercise the scoring pipeline use corpora
  with at least two entries.
-/

set_option linter.unusedSectionVars false

namespace StickerSearch

/-! ## Python dict model -/

variable {K : Type} [DecidableEq K] {α : Type}

/-- Python dict insertion `d[k] = v`: overwrite in place if the key exists,
otherwise append at the end. -/
def dinsert (d : List (K × α)) (k : K) (v : α) : List (K × α) :=
  if d.any (fun kv => decide (kv.1 = k)) then
    d.map (fun kv => if kv.1 = k then (k, v) else kv)
  else
    d ++ [(k, v)]

/-- Build a Python dict from a list of key/value pairs (as `dict(zip(..))` or a dict
comprehension does): later pairs overwrite earlier ones. -/
def pyDict (l : List (K × α)) : List (K × α) :=
  l.foldl (fun d kv => dinsert d kv.1 kv.2) []

/-- Python `d.get(k)` on an association list with unique keys. -/
def pyGet (d : List (K × α)) (k : K) : Option α :=
  (d.find? (fun kv => decide (kv.1 = k))).map Prod.snd

lemma dinsert_of_not_mem {d : List (K × α)} {k : K} (v : α)
    (h : k ∉ d.map Prod.fst) : dinsert d k v = d ++ [(k, v)] := by
  unfold dinsert
  rw [if_neg]
  intro hany
  rcases List.any_eq_true.mp hany with ⟨kv, hkv, hdec⟩
  exact h (List.mem_map.mpr ⟨kv, hkv, (of_decide_eq_true hdec).symm ▸ rfl⟩)

lemma pyDict_go_eq_append (l : List (K × α)) :
    ∀ d : List (K × α), (l.map Prod.fst).Nodup →
      (∀ k ∈ l.map Prod.fst, k ∉ d.map Prod.fst) →
      l.foldl (fun d kv => dinsert d kv.1 kv.2) d = d ++ l := by
  induction l with
  | nil => intro d _ _; simp
  | cons kv rest ih =>
    intro d hnd hdisj
    have hnd' : (rest.map Prod.fst).Nodup := by
      simp only [List.map_cons, List.nodup_cons] at hnd
      exact hnd.2
    have hhead : kv.1 ∉ rest.map Prod.fst := by
      simp only [List.map_cons, List.nodup_cons] at hnd
      exact hnd.1
    have hdisj' : ∀ k ∈ rest.map Prod.fst, k ∉ (d ++ [(kv.1, kv.2)]).map Prod.fst := by
      intro k hk
      have hkd := hdisj k (by simp only [List.map_cons, List.mem_cons]; exact Or.inr hk)
      simp only [List.map_append, List.mem_append, List.map_cons, List.map_nil,
        List.mem_singleton]
      rintro (h1 | h2)
      · exact hkd h1
      · exact hhead (h2 ▸ hk)
    simp only [List.foldl_cons]
    rw [dinsert_of_not_mem kv.2 (hdisj kv.1 (by simp))]
    rw [ih (d ++ [(kv.1, kv.2)]) hnd' hdisj']
    simp

/-- With pairwise-distinct keys, building a Python dict keeps the list as it is. -/
lemma pyDict_eq_self {l : List (K × α)} (h : (l.map Prod.fst).Nodup) :
    pyDict l = l := by
  unfold pyDict
  simpa using pyDict_go_eq_append l [] h (by simp)

/-! ## Data model (persisted index, `_load_or_initialize_index`) -/

/-- The in-memory index data: three co-indexed lists, as the Python dict
`{"features": [...], "paths": [...], "hashes": [...]}`.  A hash can be `none`
(Python `None`) when the loaded file predates hash support or hashing failed. -/
structure IndexData (P H V : Type) where
  features : List V
  paths    : List P
  hashes   : List (Option H)
deriving DecidableEq

/-- Result of `_scan_and_compare`: `(truly_new, modified, truly_deleted, moved)`. -/
structure ChangeSet (P : Type) where
  trulyNew     : List P
  modified     : List P
  trulyDeleted : List P
  moved        : List (P × P)   -- (old_path, new_path)
deriving DecidableEq

variable {P H V : Type} [DecidableEq P] [DecidableEq H]

/-- The loop of `_scan_and_compare` step 4 over `potentially_new_paths`:
state is `(deleted_hash_to_path, moved, truly_new)`. -/
def detectMovesLoop (hashOf : P → Option H) :
    List P → List (H × P) → List (P × P) → List P →
    List (H × P) × List (P × P) × List P
  | [], dht, mv, nw => (dht, mv, nw)
  | p :: rest, dht, mv, nw =>
    match hashOf p with
    | none => detectMovesLoop hashOf rest dht mv nw        -- unreadable: skipped
    | some h =>
      match pyGet dht h with
      | some oldPath =>                                    -- moved / renamed file
        detectMovesLoop hashOf rest (dht.filter (fun kv => decide (¬ kv.1 = h)))
          (mv ++ [(oldPath, p)]) nw
      | none =>                                            -- genuinely new file
        detectMovesLoop hashOf rest dht mv (nw ++ [p])

/-- `ImageIndexer._scan_and_compare` (indexer.py lines 102-151).
`indexedPathToHash` is the dict passed in by `update`; `disk` is the recursive
directory scan (a set, modelled as a duplicate-free list). -/
def scanAndCompare (indexedPathToHash : List (P × Option H)) (disk : List P)
    (hashOf : P → Option H) : ChangeSet P :=
  let indexedPaths := indexedPathToHash.map Prod.fst
  let potentiallyNew := disk.filter (fun p => decide (¬ p ∈ indexedPaths))
  let potentiallyDeleted := indexedPaths.filter (fun p => decide (¬ p ∈ disk))
  let unchangedOrModified := disk.filter (fun p => decide (p ∈ indexedPaths))
  let modified := unchangedOrModified.filter (fun p =>
    match hashOf p with
    | none => false                                        -- `if not current_hash: continue`
    | some h => decide (¬ pyGet indexedPathToHash p = some (some h)))
  let dht0 := potentiallyDeleted.foldl (fun d p =>
    match pyGet indexedPathToHash p with
    | some (some h) => dinsert d h p
    | _ => d) []
  let r := detectMovesLoop hashOf potentiallyNew dht0 [] []
  ⟨r.2.2, modified, r.1.map Prod.snd, r.2.1⟩

/-- One iteration of the move-relabelling loop in `_process_changes` step 1.
The index lookup uses the `path_to_idx` dict built once before the loop. -/
def applyMoveStep (pathToIdx : List (P × Nat)) (ps : List P) (m : P × P) : List P :=
  match pyGet pathToIdx m.1 with
  | some idx => ps.set idx m.2
  | none => ps

/-- `path_to_idx = {path: i for i, path in enumerate(paths)}`. -/
def pathToIdx (paths : List P) : List (P × Nat) :=
  pyDict ((paths.enum).map (fun ip => (ip.2, ip.1)))

/-- `_process_changes` step 1: relabel moved entries in place, no re-embedding.
(The Python code rebuilds `path_to_idx` after the loop, but never reads it again.) -/
def applyMoves (paths : List P) (moved : List (P × P)) : List P :=
  moved.foldl (applyMoveStep (pathToIdx paths)) paths

/-- `_process_changes` step 2: keep the entries whose path is not scheduled for
removal.  The Python loop indexes `features[i]` and `hashes[i]` for each kept
`paths[i]`; the three lists are consumed in lockstep. -/
def filterEntries (features : List V) (paths : List P) (hashes : List (Option H))
    (toRemove : List P) : IndexData P H V :=
  match features, paths, hashes with
  | f :: fs, p :: ps, h :: hs =>
    let rest := filterEntries fs ps hs toRemove
    if p ∈ toRemove then rest
    else ⟨f :: rest.features, p :: rest.paths, h :: rest.hashes⟩
  | _, _, _ => ⟨[], [], []⟩

/-- `_process_changes` step 3: embed every path in `paths_to_process`, appending
feature, path and freshly computed hash; a file whose image/frame cannot be
loaded or processed (`embed p = none`) is skipped with a warning. -/
def embedLoop (embed : P → Option V) (hashOf : P → Option H) :
    List P → IndexData P H V
  | [] => ⟨[], [], []⟩
  | p :: rest =>
    match embed p with
    | none => embedLoop embed hashOf rest
    | some v =>
      let r := embedLoop embed hashOf rest
      ⟨v :: r.features, p :: r.paths, (hashOf p) :: r.hashes⟩

/-- `ImageIndexer._process_changes` (indexer.py lines 153-219).  Returns the new
index data together with `paths_to_process`, the exact list of files handed to
the embedding pipeline (empty means the model is never loaded). -/
def processChanges (data : IndexData P H V) (newPaths modifiedPaths deletedPaths : List P)
    (moved : List (P × P)) (embed : P → Option V) (hashOf : P → Option H) :
    IndexData P H V × List P :=
  let paths1 := applyMoves data.paths moved
  let kept := filterEntries data.features paths1 data.hashes (modifiedPaths ++ deletedPaths)
  let toProcess := newPaths ++ modifiedPaths
  let fresh := embedLoop embed hashOf toProcess
  (⟨kept.features ++ fresh.features, kept.paths ++ fresh.paths, kept.hashes ++ fresh.hashes⟩,
   toProcess)

/-- The numeric fields of the summary dict returned by `update`
(the human-readable `message` string is omitted). -/
structure Summary where
  new      : Nat
  modified : Nat
  deleted  : Nat
  moved    : Nat
  total    : Nat
deriving DecidableEq

/-- Observable outcome of one `update` run: the summary, the index data passed to
`_save_index` (`none` when the no-change early return skips saving entirely), and
the list of paths sent to the embedder. -/
structure UpdateResult (P H V : Type) where
  summary  : Summary
  saved    : Option (IndexData P H V)
  embedded : List P
deriving DecidableEq

/-- `ImageIndexer.update` (indexer.py lines 43-71).  `data` is the loaded index,
`disk` the current recursive scan of the image directory. -/
def update (data : IndexData P H V) (disk : List P) (hashOf : P → Option H)
    (embed : P → Option V) : UpdateResult P H V :=
  let pathToHash := pyDict (data.paths.zip data.hashes)
  let cs := scanAndCompare pathToHash disk hashOf
  let s : Summary :=
    ⟨cs.trulyNew.length, cs.modified.length, cs.trulyDeleted.length, cs.moved.length, 0⟩
  if cs.trulyNew = [] ∧ cs.modified = [] ∧ cs.trulyDeleted = [] ∧ cs.moved = [] then
    ⟨{ s with total := data.paths.length }, none, []⟩
  else
    let pc := processChanges data cs.trulyNew cs.modified cs.trulyDeleted cs.moved
      embed hashOf
    ⟨{ s with total := pc.1.paths.length }, some pc.1, pc.2⟩

/-! ## `_save_index` as a filesystem-operation trace (claim C4) -/

/-- The payload `np.savez_compressed` serializes: four co-indexed arrays plus the
scalar `base_dir`. -/
structure SavedIndex (P H V : Type) where
  features : List V
  paths    : List P
  hashes   : List (Option H)
  base_dir : P
deriving DecidableEq

/-- Filesystem operations `_save_index` can perform on paths.  `rename` never
occurs in the code; it is included so that the spec's atomic-save contract can be
stated over the same alphabet. -/
inductive FSOp (P H V : Type) where
  | write  (target : P) (payload : SavedIndex P H V)
  | remove (target : P)
  | rename (src : P) (dst : P)
deriving DecidableEq

/-- `ImageIndexer._save_index` (indexer.py lines 221-254) as the sequence of
filesystem operations it performs.  `fileExists` models `os.path.exists(self.index_file)`,
`isInCurrentFolder` the `abs_image_dir.startswith(current_dir ...)` test, and
`relpath` the `os.path.relpath(·, current_dir)` transformation. -/
def saveIndexOps (indexFile : P) (fileExists : Bool) (isInCurrentFolder : Bool)
    (relpath : P → P) (absImageDir : P) (data : IndexData P H V) : List (FSOp P H V) :=
  if data.paths = [] then
    if fileExists then [FSOp.remove indexFile] else []
  else
    let storedBaseDir := if isInCurrentFolder then relpath absImageDir else absImageDir
    let storedPaths := if isInCurrentFolder then data.paths.map relpath else data.paths
    [FSOp.write indexFile ⟨data.features, storedPaths, data.hashes, storedBaseDir⟩]

/-- Modelled from the spec: "`save(store, indexFile)`: must be atomic — write to a
temporary location and rename/replace, so a crash mid-write never leaves a
half-written index."  A trace is an atomic save of `target` iff it never writes
`target` directly and installs the data by renaming some other location onto it. -/
def isAtomicSave (target : P) (ops : List (FSOp P H V)) : Prop :=
  (∀ q payload, FSOp.write q payload ∈ ops → ¬ q = target) ∧
  ∃ tmp, ¬ tmp = target ∧ FSOp.rename tmp target ∈ ops

/-! ## Searcher (`image_search_core/searcher.py`)

Vectors are `List ℚ`; the searcher state mirrors the three tensors the
`ImageSearcher` constructor builds: `image_features`, `image_paths` and
`normalized_image_features` (`path_to_idx` is recomputed from `imagePaths`
via `pathToIdx`, exactly as the constructor does). -/

/-- Elementwise vector sum (torch broadcasting over equal-length rows). -/
def vadd (v w : List ℚ) : List ℚ := (v.zip w).map (fun p => p.1 + p.2)

/-- Scalar multiple of a vector. -/
def smul (c : ℚ) (v : List ℚ) : List ℚ := v.map (fun x => c * x)

/-- Dot product of two equal-length vectors. -/
def dot (v w : List ℚ) : ℚ := ((v.zip w).map (fun p => p.1 * p.2)).sum

/-- Sum of a list of vectors (`torch.cat(vs, dim=0)` followed by a sum over dim 0). -/
def vsum : List (List ℚ) → List ℚ
  | [] => []
  | v :: vs => vs.foldl vadd v

/-- `torch.mean(torch.cat(vs, dim=0), dim=0)`: the elementwise mean. -/
def vmean (vs : List (List ℚ)) : List ℚ :=
  smul (1 / (vs.length : ℚ)) (vsum vs)

/-- Two vectors point in the same direction: one is a positive scalar multiple of
the other.  `F.normalize` maps a nonzero vector to the unique unit vector in its
direction, so two nonzero vectors normalize equally iff `sameDir` holds. -/
def sameDir (v w : List ℚ) : Prop := ∃ c : ℚ, 0 < c ∧ w = smul c v

/-- `ImageSearcher.__init__` state: the raw feature rows, the absolute paths, and
the L2-normalized feature rows, co-indexed. -/
structure SearcherState where
  imageFeatures : List (List ℚ)
  imagePaths : List String
  normalizedImageFeatures : List (List ℚ)
deriving DecidableEq

/-- Python truthiness of an optional string (`None` and `""` are falsy). -/
def pyTruthy : Option String → Bool
  | none => false
  | some s => decide (¬ s = "")

/-- Python `s.strip()`: remove whitespace from both ends of the string. -/
def pyStrip (s : String) : String :=
  String.mk (((s.data.dropWhile Char.isWhitespace).reverse.dropWhile
    Char.isWhitespace).reverse)

/-- Split a character list on a separator character (`str.split(sep)` semantics:
the empty input yields one empty group). -/
def splitChars (sep : Char) : List Char → List (List Char)
  | [] => [[]]
  | c :: rest =>
    let r := splitChars sep rest
    if c = sep then [] :: r
    else
      match r with
      | [] => [[c]]
      | g :: gs => (c :: g) :: gs

/-- Python `s.split(sep)` for a one-character separator. -/
def pySplit (s : String) (sep : Char) : List String :=
  (splitChars sep s.data).map String.mk

/-- The Python exceptions the searcher can raise. -/
inductive PyError where
  | valueError
deriving DecidableEq

/-- Ranking order used to model `torch.topk`: higher score first, ties broken by
the smaller original row index. -/
def scoreOrder (a b : Nat × ℚ) : Prop :=
  b.2 < a.2 ∨ (b.2 = a.2 ∧ a.1 ≤ b.1)

instance : DecidableRel scoreOrder := fun a b =>
  inferInstanceAs (Decidable (b.2 < a.2 ∨ (b.2 = a.2 ∧ a.1 ≤ b.1)))

/-- All rows ranked by descending score (stable in the original row index):
the full sort underlying `torch.topk(final_scores, k)`. -/
def rankAll (scores : List ℚ) : List (Nat × ℚ) :=
  List.insertionSort scoreOrder ((List.range scores.length).zip scores)

/-- `search` lines 81-95: fetch `min(top_k + offset, nPaths)` top entries, return
the slice after dropping `offset` (empty when nothing remains past the offset). -/
def searchRank (scores : List ℚ) (nPaths top_k offset : Nat) : List (Nat × ℚ) :=
  let totalResultsToFetch := min (top_k + offset) nPaths
  if totalResultsToFetch ≤ offset then []
  else ((rankAll scores).take totalResultsToFetch).drop offset

/-- `search` lines 43-47: the text query contributes `embedText query` when the
query is truthy and strips to something truthy. -/
def textPositive (embedText : String → List ℚ) (query : Option String) :
    List (List ℚ) :=
  match query with
  | some q => if ¬ q = "" ∧ ¬ pyStrip q = "" then [embedText q] else []
  | none => []

/-- `search` lines 49-56: the similar-image reference contributes the **raw
stored** row `image_features[idx]` when the path is truthy, strips truthy and is
found in `path_to_idx` — an unknown path is ignored with a warning. -/
def imagePositive (st : SearcherState) (similarImagePath : Option String) :
    List (List ℚ) :=
  match similarImagePath with
  | some t =>
    if ¬ t = "" ∧ ¬ pyStrip t = "" then
      match pyGet (pathToIdx st.imagePaths) t with
      | some idx => [st.imageFeatures.getD idx []]
      | none => []
    else []
  | none => []

/-- Modelled from the spec: "for each path in `positiveImageRefs`, look up its
already-stored (not re-embedded) **normalized** vector" — the image contribution
taken from the normalized matrix instead of the raw feature rows. -/
def imagePositiveSpec (st : SearcherState) (similarImagePath : Option String) :
    List (List ℚ) :=
  match similarImagePath with
  | some t =>
    if ¬ t = "" ∧ ¬ pyStrip t = "" then
      match pyGet (pathToIdx st.imagePaths) t with
      | some idx => [st.normalizedImageFeatures.getD idx []]
      | none => []
    else []
  | none => []

/-- `search` step 1 (lines 42-56): the list `positive_vectors`. -/
def positiveVectors (st : SearcherState) (embedText : String → List ℚ)
    (query : Option String) (similarImagePath : Option String) : List (List ℚ) :=
  textPositive embedText query ++ imagePositive st similarImagePath

/-- Modelled from the spec: `positiveVectors` with the spec's normalized image
vector resolution. -/
def positiveVectorsSpec (st : SearcherState) (embedText : String → List ℚ)
    (query : Option String) (similarImagePath : Option String) : List (List ℚ) :=
  textPositive embedText query ++ imagePositiveSpec st similarImagePath

/-- `[kw.strip() for kw in negative_query.split(',') if kw.strip()]`, guarded by
the truthiness tests on `negative_query` (lines 70-72 / 117-121). -/
def negKeywords (negativeQuery : Option String) : List String :=
  match negativeQuery with
  | some s =>
    if ¬ s = "" ∧ ¬ pyStrip s = "" then
      ((pySplit s ',').map pyStrip).filter (fun kw => decide (¬ kw = ""))
    else []
  | none => []

/-- The negative-score row (lines 73-78 / 122-127): embed each keyword, average,
normalize (`cneg` stands for the reciprocal norm), dot against every normalized
corpus row. -/
def negativeScores (st : SearcherState) (embedText : String → List ℚ) (cneg : ℚ)
    (kws : List String) : List ℚ :=
  let negVecs := kws.map embedText
  let avgNeg := vmean negVecs
  let normalizedNeg := smul cneg avgNeg
  st.normalizedImageFeatures.map (fun row => dot normalizedNeg row)

/-- `search` steps 1-3 (lines 42-79): the `final_scores` row.  `cpos` is the
reciprocal norm of the combined positive vector (`F.normalize`), `cneg` of the
averaged negative vector. -/
def finalScores (st : SearcherState) (embedText : String → List ℚ) (cpos cneg : ℚ)
    (query similarImagePath negativeQuery : Option String) : List ℚ :=
  let combinedPositive := vmean (positiveVectors st embedText query similarImagePath)
  let normalizedPositive := smul cpos combinedPositive
  let positiveScores := st.normalizedImageFeatures.map (fun row => dot normalizedPositive row)
  match negKeywords negativeQuery with
  | [] => positiveScores
  | kws =>
    let negScores := negativeScores st embedText cneg kws
    (positiveScores.zip negScores).map (fun p => p.1 - p.2)

/-- Modelled from the spec: `finalScores` with the spec's positive-vector
resolution (`positiveVectorsSpec`) in place of the code's. -/
def finalScoresSpec (st : SearcherState) (embedText : String → List ℚ) (cpos cneg : ℚ)
    (query similarImagePath negativeQuery : Option String) : List ℚ :=
  let combinedPositive := vmean (positiveVectorsSpec st embedText query similarImagePath)
  let normalizedPositive := smul cpos combinedPositive
  let positiveScores := st.normalizedImageFeatures.map (fun row => dot normalizedPositive row)
  match negKeywords negativeQuery with
  | [] => positiveScores
  | kws =>
    let negScores := negativeScores st embedText cneg kws
    (positiveScores.zip negScores).map (fun p => p.1 - p.2)

/-- `ImageSearcher.search` (searcher.py lines 31-95).  The Python function can in
principle surface an exception to the caller, hence the `Except` result; its body
never raises.  Results are `(path, score)` pairs.  Faithful to the program for
corpora with `n ≠ 1` rows and on every early-return path; see the header note on
the one-entry `.squeeze()` shape artifact. -/
def search (st : SearcherState) (embedText : String → List ℚ) (cpos cneg : ℚ)
    (query : Option String) (top_k : Int) (negativeQuery : Option String)
    (similarImagePath : Option String) (offset : Nat) :
    Except PyError (List (String × ℚ)) :=
  if top_k ≤ 0 ∨ (pyTruthy query = false ∧ pyTruthy similarImagePath = false) then
    Except.ok []
  else if positiveVectors st embedText query similarImagePath = [] then
    Except.ok []
  else
    let scores := finalScores st embedText cpos cneg query similarImagePath negativeQuery
    Except.ok ((searchRank scores st.imagePaths.length top_k.toNat offset).map
      (fun p => (st.imagePaths.getD p.1 "", p.2)))

/-- Modelled from the spec: `search` with the spec's positive-vector resolution
(already-stored **normalized** row) in place of the code's raw row. -/
def searchSpec (st : SearcherState) (embedText : String → List ℚ) (cpos cneg : ℚ)
    (query : Option String) (top_k : Int) (negativeQuery : Option String)
    (similarImagePath : Option String) (offset : Nat) :
    Except PyError (List (String × ℚ)) :=
  if top_k ≤ 0 ∨ (pyTruthy query = false ∧ pyTruthy similarImagePath = false) then
    Except.ok []
  else if positiveVectorsSpec st embedText query similarImagePath = [] then
    Except.ok []
  else
    let scores := finalScoresSpec st embedText cpos cneg query similarImagePath negativeQuery
    Except.ok ((searchRank scores st.imagePaths.length top_k.toNat offset).map
      (fun p => (st.imagePaths.getD p.1 "", p.2)))

/-- `search_by_image` lines 110-128: the `final_scores` row — positive scores are
the dot products of the query item's **normalized** row against every normalized
corpus row, minus the optional negative-keyword scores. -/
def finalScoresByImage (st : SearcherState) (embedText : String → List ℚ)
    (cneg : ℚ) (queryIdx : Nat) (negativeQuery : Option String) : List ℚ :=
  let queryVector := st.normalizedImageFeatures.getD queryIdx []
  let positiveScores := st.normalizedImageFeatures.map (fun row => dot queryVector row)
  match negKeywords negativeQuery with
  | [] => positiveScores
  | kws =>
    let negScores := negativeScores st embedText cneg kws
    (positiveScores.zip negScores).map (fun p => p.1 - p.2)

/-- `ImageSearcher.search_by_image` (searcher.py lines 98-147).  Faithful to the
program for corpora with `n ≠ 1` rows, on the `top_k ≤ 0` guard and on the
unknown-path `ValueError` path; see the header note on the one-entry
`.squeeze()` shape artifact. -/
def search_by_image (st : SearcherState) (embedText : String → List ℚ) (cneg : ℚ)
    (imagePath : String) (top_k : Int) (negativeQuery : Option String) (offset : Nat) :
    Except PyError (List (String × ℚ)) :=
  if top_k ≤ 0 then Except.ok []
  else
    match pyGet (pathToIdx st.imagePaths) imagePath with
    | none => Except.error PyError.valueError
    | some queryIdx =>
      let scores := finalScoresByImage st embedText cneg queryIdx negativeQuery
      let totalResultsToFetch := min (top_k.toNat + offset + 1) st.imagePaths.length
      let topResults := (rankAll scores).take totalResultsToFetch
      let allResults := (topResults.filter (fun p => decide (¬ p.1 = queryIdx))).map
        (fun p => (st.imagePaths.getD p.1 "", p.2))
      Except.ok ((allResults.drop offset).take top_k.toNat)

/-! ## Searcher lemmas -/

lemma textPositive_eq_nil {embedText : String → List ℚ} {query : Option String}
    (h : ∀ q, query = some q → q = "" ∨ pyStrip q = "") :
    textPositive embedText query = [] := by
  cases query with
  | none => rfl
  | some q =>
    rcases h q rfl with h1 | h1 <;>
      · show (if ¬ q = "" ∧ ¬ pyStrip q = "" then [embedText q] else []) = []
        rw [if_neg]
        rintro ⟨hq1, hq2⟩
        first
          | exact hq1 h1
          | exact hq2 h1

lemma imagePositive_eq_nil {st : SearcherState} {similarImagePath : Option String}
    (h : ∀ t, similarImagePath = some t →
      t = "" ∨ pyStrip t = "" ∨ pyGet (pathToIdx st.imagePaths) t = none) :
    imagePositive st similarImagePath = [] := by
  cases similarImagePath with
  | none => rfl
  | some t =>
    rcases h t rfl with h1 | h1 | h1
    · show (if ¬ t = "" ∧ ¬ pyStrip t = "" then
          (match pyGet (pathToIdx st.imagePaths) t with
            | some idx => [st.imageFeatures.getD idx []]
            | none => []) else []) = []
      rw [if_neg]
      rintro ⟨ht1, _⟩
      exact ht1 h1
    · show (if ¬ t = "" ∧ ¬ pyStrip t = "" then
          (match pyGet (pathToIdx st.imagePaths) t with
            | some idx => [st.imageFeatures.getD idx []]
            | none => []) else []) = []
      rw [if_neg]
      rintro ⟨_, ht2⟩
      exact ht2 h1
    · show (if ¬ t = "" ∧ ¬ pyStrip t = "" then
          (match pyGet (pathToIdx st.imagePaths) t with
            | some idx => [st.imageFeatures.getD idx []]
            | none => []) else []) = []
      rw [h1]
      split <;> rfl

/-- When `positive_vectors` is empty, `search` returns the empty list
(either at the line-35 gate or at the line-58 gate). -/
lemma search_eq_ok_nil_of_pos_nil {st : SearcherState} {embedText : String → List ℚ}
    {cpos cneg : ℚ} {query : Option String} {top_k : Int}
    {negativeQuery similarImagePath : Option String} {offset : Nat}
    (hpos : positiveVectors st embedText query similarImagePath = []) :
    search st embedText cpos cneg query top_k negativeQuery similarImagePath offset =
      Except.ok [] := by
  unfold search
  by_cases hgate :
      top_k ≤ 0 ∨ (pyTruthy query = false ∧ pyTruthy similarImagePath = false)
  · rw [if_pos hgate]
  · rw [if_neg hgate, if_pos hpos]

/-! ## Claim C10: nonpositive `top_k` yields the empty result in both searches -/

/-- C10: for every query and every `top_k ≤ 0`, both `ImageSearcher.search` and
`ImageSearcher.search_by_image` return the empty result list without raising.
The statement quantifies over an arbitrary `embedText`, so the result is
independent of the embedder (which the code indeed never invokes on this path:
both guards precede the `model_loader.load()` calls). -/
theorem search_topk_nonpositive (st : SearcherState) (embedText : String → List ℚ)
    (cpos cneg : ℚ) (query : Option String) (top_k : Int)
    (negativeQuery similarImagePath : Option String) (imagePath : String)
    (offset : Nat) (hk : top_k ≤ 0) :
    search st embedText cpos cneg query top_k negativeQuery similarImagePath offset =
      Except.ok [] ∧
    search_by_image st embedText cneg imagePath top_k negativeQuery offset =
      Except.ok [] := by
  constructor
  · unfold search
    rw [if_pos (Or.inl hk)]
  · unfold search_by_image
    rw [if_pos hk]

/-- Witness for C10 at a concrete state, `top_k = -1`, and a path that is not
even in the index (so the `search_by_image` result is `ok []`, not an error). -/
theorem search_topk_nonpositive_witness :
    ((-1 : Int) ≤ 0) ∧
    (search ⟨[[1]], ["a"], [[1]]⟩ (fun _ => [1]) 1 1 (some "q") (-1) none none 0 =
        Except.ok [] ∧
     search_by_image ⟨[[1]], ["a"], [[1]]⟩ (fun _ => [1]) 1 "zz" (-1) none 0 =
        Except.ok []) :=
  ⟨by decide,
   search_topk_nonpositive ⟨[[1]], ["a"], [[1]]⟩ (fun _ => [1]) 1 1 (some "q") (-1)
     none none "zz" 0 (by decide)⟩

/-! ## Claim C3: empty query — the code returns `[]`, it does not raise -/

/-- C3 counterexample: on a query with no resolvable positive vector (no text, no
similar image), `search` succeeds with the empty list — it does not fail with a
`ValidationError` (or any error) surfaced to the caller. -/
theorem search_empty_query_cex :
    search ⟨[[1]], ["a"], [[1]]⟩ (fun _ => [1]) 1 1 none 5 none none 0 =
      Except.ok [] ∧
    ∀ e : PyError,
      search ⟨[[1]], ["a"], [[1]]⟩ (fun _ => [1]) 1 1 none 5 none none 0 ≠
        Except.error e := by
  have h : search ⟨[[1]], ["a"], [[1]]⟩ (fun _ => [1]) 1 1 none 5 none none 0 =
      Except.ok [] := by rfl
  refine ⟨h, fun e he => ?_⟩
  rw [h] at he
  cases he

/-- C3 amended: whenever no positive vector can be resolved (the text query is
`None`, empty or whitespace, and the similar-image reference is `None`, empty,
whitespace or not in the index), `search` returns the empty list successfully. -/
theorem search_empty_query_returns_empty (st : SearcherState)
    (embedText : String → List ℚ) (cpos cneg : ℚ) (query : Option String)
    (top_k : Int) (negativeQuery similarImagePath : Option String) (offset : Nat)
    (htext : ∀ q, query = some q → q = "" ∨ pyStrip q = "")
    (himg : ∀ t, similarImagePath = some t →
      t = "" ∨ pyStrip t = "" ∨ pyGet (pathToIdx st.imagePaths) t = none) :
    search st embedText cpos cneg query top_k negativeQuery similarImagePath offset =
      Except.ok [] := by
  apply search_eq_ok_nil_of_pos_nil
  unfold positiveVectors
  rw [textPositive_eq_nil htext, imagePositive_eq_nil himg]
  rfl

/-- Witness for C3 amended: a whitespace text query together with an indexed-path
reference that strips to whitespace. -/
theorem search_empty_query_returns_empty_witness :
    (∀ q, (some " " : Option String) = some q → q = "" ∨ pyStrip q = "") ∧
    (∀ t, (some " " : Option String) = some t →
      t = "" ∨ pyStrip t = "" ∨
      pyGet (pathToIdx (SearcherState.mk [[1]] ["a"] [[1]]).imagePaths) t = none) ∧
    search ⟨[[1]], ["a"], [[1]]⟩ (fun _ => [1]) 1 1 (some " ") 5 none (some " ") 0 =
      Except.ok [] :=
  ⟨by intro q hq; cases hq; right; rfl,
   by intro t ht; cases ht; right; left; rfl,
   search_empty_query_returns_empty ⟨[[1]], ["a"], [[1]]⟩ (fun _ => [1]) 1 1
     (some " ") 5 none (some " ") 0
     (by intro q hq; cases hq; right; rfl)
     (by intro t ht; cases ht; right; left; rfl)⟩

/-! ## Claim C8: unknown path references -/

/-- C8 counterexample: `search` with a positive image reference that is not in
the index does not fail — the stale reference is ignored (with a warning) and
the text-only result is returned.  Only `search_by_image` raises. -/
theorem search_unknown_ref_cex :
    pyGet (pathToIdx (["a", "b"] : List String)) "zz" = none ∧
    search ⟨[[1,0],[0,1]], ["a","b"], [[1,0],[0,1]]⟩ (fun _ => [1,0]) 1 1
        (some "q") 5 none (some "zz") 0 =
      Except.ok [("a", 1), ("b", 0)] := by
  constructor
  · rfl
  · norm_num +decide [search, searchRank, rankAll, finalScores, negKeywords,
      positiveVectors, textPositive, imagePositive, pathToIdx, pyDict, pyGet, dinsert,
      pyStrip, vmean, vsum, vadd, smul, dot, pyTruthy, List.insertionSort,
      List.orderedInsert, scoreOrder, List.dropWhile, Char.isWhitespace,
      List.enum, List.enumFrom, List.find?, List.foldl, List.any, Option.map,
      List.zip, List.zipWith, Function.comp]

/-- C8 amended: a referenced path absent from the loaded index makes
`search_by_image` raise (`ValueError`, Python's stand-in for `NotFoundError`),
but `search` silently ignores the unknown positive image reference — its result
is identical to the same query without the reference. -/
theorem search_unknown_ref_behaviour (st : SearcherState)
    (embedText : String → List ℚ) (cpos cneg : ℚ) (query : Option String)
    (top_k : Int) (negativeQuery : Option String) (t : String) (offset : Nat)
    (hmiss : pyGet (pathToIdx st.imagePaths) t = none) :
    search st embedText cpos cneg query top_k negativeQuery (some t) offset =
      search st embedText cpos cneg query top_k negativeQuery none offset ∧
    (0 < top_k →
      search_by_image st embedText cneg t top_k negativeQuery offset =
        Except.error PyError.valueError) := by
  have himg : imagePositive st (some t) = [] :=
    imagePositive_eq_nil (fun t' ht' => by cases ht'; exact Or.inr (Or.inr hmiss))
  have hpv : positiveVectors st embedText query (some t) =
      positiveVectors st embedText query none := by
    unfold positiveVectors
    rw [himg]
    rfl
  constructor
  · by_cases hk : top_k ≤ 0
    · unfold search
      rw [if_pos (Or.inl hk), if_pos (Or.inl hk)]
    · by_cases hq : pyTruthy query = false
      · have hl : search st embedText cpos cneg query top_k negativeQuery
            (some t) offset = Except.ok [] := by
          apply search_eq_ok_nil_of_pos_nil
          rw [hpv]
          unfold positiveVectors
          rw [textPositive_eq_nil]
          · rfl
          · intro q' hq'
            subst hq'
            simp only [pyTruthy, decide_eq_false_iff_not, not_not] at hq
            exact Or.inl hq
        have hr : search st embedText cpos cneg query top_k negativeQuery
            none offset = Except.ok [] := by
          unfold search
          rw [if_pos (Or.inr ⟨hq, rfl⟩)]
        rw [hl, hr]
      · have hq' : pyTruthy query = true := by
          cases h : pyTruthy query
          · exact absurd h hq
          · rfl
        have hfs : finalScores st embedText cpos cneg query (some t) negativeQuery =
            finalScores st embedText cpos cneg query none negativeQuery := by
          unfold finalScores
          rw [hpv]
        have hgL : ¬ (top_k ≤ 0 ∨
            (pyTruthy query = false ∧ pyTruthy (some t) = false)) := by
          rintro (h1 | h2)
          · exact hk h1
          · rw [hq'] at h2
            cases h2.1
        have hgR : ¬ (top_k ≤ 0 ∨
            (pyTruthy query = false ∧ pyTruthy (none : Option String) = false)) := by
          rintro (h1 | h2)
          · exact hk h1
          · rw [hq'] at h2
            cases h2.1
        unfold search
        rw [if_neg hgL, if_neg hgR, hpv, hfs]
  · intro hk
    unfold search_by_image
    rw [if_neg (by omega), hmiss]

/-- Witness for C8 amended at a concrete two-entry index and the unknown path
`"zz"`. -/
theorem search_unknown_ref_behaviour_witness :
    pyGet (pathToIdx ((⟨[[1,0],[0,1]], ["a","b"], [[1,0],[0,1]]⟩ :
      SearcherState).imagePaths)) "zz" = none ∧
    (search ⟨[[1,0],[0,1]], ["a","b"], [[1,0],[0,1]]⟩ (fun _ => [1,0]) 1 1
        (some "q") 5 none (some "zz") 0 =
        search ⟨[[1,0],[0,1]], ["a","b"], [[1,0],[0,1]]⟩ (fun _ => [1,0]) 1 1
          (some "q") 5 none none 0 ∧
      (0 < (5 : Int) →
        search_by_image ⟨[[1,0],[0,1]], ["a","b"], [[1,0],[0,1]]⟩ (fun _ => [1,0])
            1 "zz" 5 none 0 =
          Except.error PyError.valueError)) :=
  ⟨rfl,
   search_unknown_ref_behaviour ⟨[[1,0],[0,1]], ["a","b"], [[1,0],[0,1]]⟩
     (fun _ => [1,0]) 1 1 (some "q") 5 none "zz" 0 rfl⟩

/-! ## Claim C4: `_save_index` writes the index file directly, not atomically -/

/-- C4 counterexample: on a concrete non-empty store, the trace of filesystem
operations `_save_index` performs is a single direct write to the index file
path — it is not an atomic temp-write-plus-rename save. -/
theorem save_index_not_atomic_cex :
    saveIndexOps "index.npz" true false id "dir"
        (⟨[(1 : ℚ)], ["p"], [some "h"]⟩ : IndexData String String ℚ) =
      [FSOp.write "index.npz" ⟨[(1 : ℚ)], ["p"], [some "h"], "dir"⟩] ∧
    ¬ isAtomicSave "index.npz"
        (saveIndexOps "index.npz" true false id "dir"
          (⟨[(1 : ℚ)], ["p"], [some "h"]⟩ : IndexData String String ℚ)) := by
  have h : saveIndexOps "index.npz" true false id "dir"
      (⟨[(1 : ℚ)], ["p"], [some "h"]⟩ : IndexData String String ℚ) =
      [FSOp.write "index.npz" ⟨[(1 : ℚ)], ["p"], [some "h"], "dir"⟩] := by rfl
  refine ⟨h, ?_⟩
  rintro ⟨-, tmp, -, hmem⟩
  rw [h] at hmem
  rcases List.mem_singleton.mp hmem with h'
  cases h'

/-- C4 amended: for every non-empty store, `_save_index` performs exactly one
filesystem operation — a direct `np.savez_compressed` write to the index file
path (after applying the relative/absolute path-storage policy).  No temporary
file and no rename are involved, so the save is not atomic. -/
theorem save_index_direct_write (indexFile : P) (fileExists isInCurrentFolder : Bool)
    (relpath : P → P) (absImageDir : P) (data : IndexData P H V)
    (hne : ¬ data.paths = []) :
    saveIndexOps indexFile fileExists isInCurrentFolder relpath absImageDir data =
      [FSOp.write indexFile
        ⟨data.features,
         if isInCurrentFolder then data.paths.map relpath else data.paths,
         data.hashes,
         if isInCurrentFolder then relpath absImageDir else absImageDir⟩] ∧
    ¬ isAtomicSave indexFile
        (saveIndexOps indexFile fileExists isInCurrentFolder relpath absImageDir data) := by
  have h : saveIndexOps indexFile fileExists isInCurrentFolder relpath absImageDir data =
      [FSOp.write indexFile
        ⟨data.features,
         if isInCurrentFolder then data.paths.map relpath else data.paths,
         data.hashes,
         if isInCurrentFolder then relpath absImageDir else absImageDir⟩] := by
    unfold saveIndexOps
    rw [if_neg hne]
  refine ⟨h, ?_⟩
  rintro ⟨-, tmp, -, hmem⟩
  rw [h] at hmem
  rcases List.mem_singleton.mp hmem with h'
  cases h'

/-- Witness for C4 amended at a concrete non-empty store. -/
theorem save_index_direct_write_witness :
    ¬ (⟨[(1 : ℚ)], ["p"], [some "h"]⟩ : IndexData String String ℚ).paths = [] ∧
    (saveIndexOps "idx.npz" false true (fun s => s ++ "r") "d"
        (⟨[(1 : ℚ)], ["p"], [some "h"]⟩ : IndexData String String ℚ) =
      [FSOp.write "idx.npz"
        ⟨[(1 : ℚ)],
         if true then (["p"] : List String).map (fun s => s ++ "r") else ["p"],
         [some "h"],
         if true then "d" ++ "r" else "d"⟩] ∧
      ¬ isAtomicSave "idx.npz"
        (saveIndexOps "idx.npz" false true (fun s => s ++ "r") "d"
          (⟨[(1 : ℚ)], ["p"], [some "h"]⟩ : IndexData String String ℚ))) :=
  ⟨by decide,
   save_index_direct_write "idx.npz" false true (fun s => s ++ "r") "d"
     ⟨[(1 : ℚ)], ["p"], [some "h"]⟩ (by decide)⟩

/-! ## Claim C5: the positive image vector is the raw stored row, not the
normalized one -/

/-- C5 counterexample: with stored features `[[0,8],[3,0]]` (normalized rows
`[[0,1],[1,0]]`), text embedding `[4,0]` and positive image reference `"a"`,
the code's combined positive vector has direction `[2,4]` (mean of the text
vector and the **raw** stored row `[0,8]`), while the spec's has direction
`[2,1/2]` (mean with the **normalized** row `[0,1]`); the two are not positive
multiples of each other, so they normalize to different unit vectors, and the
two searches even return different rankings. -/
theorem search_positive_vector_cex :
    search ⟨[[0,8],[3,0]], ["a","b"], [[0,1],[1,0]]⟩ (fun _ => [4,0]) 1 1
        (some "q") 5 none (some "a") 0 = Except.ok [("a", 4), ("b", 2)] ∧
    searchSpec ⟨[[0,8],[3,0]], ["a","b"], [[0,1],[1,0]]⟩ (fun _ => [4,0]) 1 1
        (some "q") 5 none (some "a") 0 = Except.ok [("b", 2), ("a", 1/2)] ∧
    ¬ sameDir
        (vmean (positiveVectors ⟨[[0,8],[3,0]], ["a","b"], [[0,1],[1,0]]⟩
          (fun _ => [4,0]) (some "q") (some "a")))
        (vmean (positiveVectorsSpec ⟨[[0,8],[3,0]], ["a","b"], [[0,1],[1,0]]⟩
          (fun _ => [4,0]) (some "q") (some "a"))) := by
  refine ⟨?_, ?_, ?_⟩
  · norm_num +decide [search, searchRank, rankAll, finalScores, negKeywords,
      positiveVectors, textPositive, imagePositive, pathToIdx, pyDict, pyGet, dinsert,
      pyStrip, vmean, vsum, vadd, smul, dot, pyTruthy, List.insertionSort,
      List.orderedInsert, scoreOrder, List.dropWhile, Char.isWhitespace,
      List.enum, List.enumFrom, List.find?, List.foldl, List.any, Option.map,
      List.zip, List.zipWith, Function.comp]
  · norm_num +decide [searchSpec, searchRank, rankAll, finalScoresSpec, negKeywords,
      positiveVectorsSpec, textPositive, imagePositiveSpec, pathToIdx, pyDict, pyGet,
      dinsert, pyStrip, vmean, vsum, vadd, smul, dot, pyTruthy, List.insertionSort,
      List.orderedInsert, scoreOrder, List.dropWhile, Char.isWhitespace,
      List.enum, List.enumFrom, List.find?, List.foldl, List.any, Option.map,
      List.zip, List.zipWith, Function.comp]
  · have hv1 : vmean (positiveVectors ⟨[[0,8],[3,0]], ["a","b"], [[0,1],[1,0]]⟩
        (fun _ => [4,0]) (some "q") (some "a")) = [2, 4] := by
      norm_num +decide [positiveVectors, textPositive, imagePositive, pathToIdx,
        pyDict, pyGet, dinsert, pyStrip, vmean, vsum, vadd, smul, List.dropWhile,
        Char.isWhitespace, List.enum, List.enumFrom, List.find?, List.foldl,
        List.any, Option.map, List.zip, List.zipWith, Function.comp]
    have hv2 : vmean (positiveVectorsSpec ⟨[[0,8],[3,0]], ["a","b"], [[0,1],[1,0]]⟩
        (fun _ => [4,0]) (some "q") (some "a")) = [2, 1/2] := by
      norm_num +decide [positiveVectorsSpec, textPositive, imagePositiveSpec,
        pathToIdx, pyDict, pyGet, dinsert, pyStrip, vmean, vsum, vadd, smul,
        List.dropWhile, Char.isWhitespace,
      List.enum, List.enumFrom, List.find?, List.foldl, List.any, Option.map,
      List.zip, List.zipWith, Function.comp]
    rw [sameDir, hv1, hv2]
    rintro ⟨c, hc, heq⟩
    simp only [smul, List.map_cons, List.map_nil, List.cons.injEq, and_true] at heq
    obtain ⟨h1, h2⟩ := heq
    have hc1 : c = 1 := by linarith
    rw [hc1] at h2
    norm_num at h2

/-- C5 amended: when both a positive text and a positive image reference resolve,
the image contribution is the already-stored **raw** feature row (not re-embedded
and not the normalized row), and the combined positive query vector is the mean
of the resolved positive vectors which is then normalized (`cpos` standing for
the reciprocal norm) and dotted against the normalized corpus matrix. -/
theorem search_raw_image_vector (st : SearcherState) (embedText : String → List ℚ)
    (cpos cneg : ℚ) (q t : String) (negativeQuery : Option String) (idx : Nat)
    (hq1 : ¬ q = "") (hq2 : ¬ pyStrip q = "") (ht1 : ¬ t = "")
    (ht2 : ¬ pyStrip t = "") (hidx : pyGet (pathToIdx st.imagePaths) t = some idx) :
    positiveVectors st embedText (some q) (some t) =
      [embedText q, st.imageFeatures.getD idx []] ∧
    vmean (positiveVectors st embedText (some q) (some t)) =
      smul (1 / (2 : ℚ)) (vadd (embedText q) (st.imageFeatures.getD idx [])) ∧
    (negKeywords negativeQuery = [] →
      finalScores st embedText cpos cneg (some q) (some t) negativeQuery =
        st.normalizedImageFeatures.map (fun row =>
          dot (smul cpos (vmean (positiveVectors st embedText (some q) (some t))))
            row)) := by
  have h1 : textPositive embedText (some q) = [embedText q] := by
    show (if ¬ q = "" ∧ ¬ pyStrip q = "" then [embedText q] else []) = [embedText q]
    rw [if_pos ⟨hq1, hq2⟩]
  have h2 : imagePositive st (some t) = [st.imageFeatures.getD idx []] := by
    show (if ¬ t = "" ∧ ¬ pyStrip t = "" then
        (match pyGet (pathToIdx st.imagePaths) t with
          | some idx => [st.imageFeatures.getD idx []]
          | none => []) else []) = [st.imageFeatures.getD idx []]
    rw [if_pos ⟨ht1, ht2⟩, hidx]
  have hpv : positiveVectors st embedText (some q) (some t) =
      [embedText q, st.imageFeatures.getD idx []] := by
    unfold positiveVectors
    rw [h1, h2]
    rfl
  refine ⟨hpv, ?_, ?_⟩
  · rw [hpv]
    show smul (1 / ((2 : Nat) : ℚ))
        ([st.imageFeatures.getD idx []].foldl vadd (embedText q)) = _
    norm_num [List.foldl]
  · intro hneg
    unfold finalScores
    rw [hneg]

/-- Witness for C5 amended at the counterexample's concrete state. -/
theorem search_raw_image_vector_witness :
    (¬ ("q" : String) = "") ∧ (¬ pyStrip "q" = "") ∧ (¬ ("a" : String) = "") ∧
    (¬ pyStrip "a" = "") ∧
    pyGet (pathToIdx ((⟨[[0,8],[3,0]], ["a","b"], [[0,1],[1,0]]⟩ :
      SearcherState).imagePaths)) "a" = some 0 ∧
    (positiveVectors ⟨[[0,8],[3,0]], ["a","b"], [[0,1],[1,0]]⟩ (fun _ => [4,0])
        (some "q") (some "a") =
      [(fun _ => ([4,0] : List ℚ)) "q",
       (⟨[[0,8],[3,0]], ["a","b"], [[0,1],[1,0]]⟩ :
         SearcherState).imageFeatures.getD 0 []] ∧
     vmean (positiveVectors ⟨[[0,8],[3,0]], ["a","b"], [[0,1],[1,0]]⟩
        (fun _ => [4,0]) (some "q") (some "a")) =
      smul (1 / (2 : ℚ)) (vadd ((fun _ => ([4,0] : List ℚ)) "q")
        ((⟨[[0,8],[3,0]], ["a","b"], [[0,1],[1,0]]⟩ :
          SearcherState).imageFeatures.getD 0 [])) ∧
     (negKeywords none = [] →
      finalScores ⟨[[0,8],[3,0]], ["a","b"], [[0,1],[1,0]]⟩ (fun _ => [4,0]) 1 1
          (some "q") (some "a") none =
        (⟨[[0,8],[3,0]], ["a","b"], [[0,1],[1,0]]⟩ :
          SearcherState).normalizedImageFeatures.map (fun row =>
            dot (smul 1 (vmean (positiveVectors
              ⟨[[0,8],[3,0]], ["a","b"], [[0,1],[1,0]]⟩ (fun _ => [4,0])
              (some "q") (some "a")))) row))) :=
  ⟨by decide, by decide, by decide, by decide, rfl,
   search_raw_image_vector ⟨[[0,8],[3,0]], ["a","b"], [[0,1],[1,0]]⟩
     (fun _ => [4,0]) 1 1 "q" "a" none 0 (by decide) (by decide) (by decide)
     (by decide) rfl⟩

/-! ## Ranking lemmas (torch.topk model) -/

lemma rankAll_length (scores : List ℚ) : (rankAll scores).length = scores.length := by
  unfold rankAll
  rw [List.length_insertionSort]
  simp [List.length_zip]

lemma take_min_self_length {β : Type} (l : List β) (a : Nat) :
    l.take (min a l.length) = l.take a := by
  rcases Nat.le_total a l.length with h | h
  · rw [Nat.min_eq_left h]
  · rw [Nat.min_eq_right h, List.take_length, List.take_of_length_le h]

/-- The fetch-then-slice of `search` lines 81-95 equals dropping `offset` from the
full stable ranking and taking `top_k`. -/
lemma searchRank_eq (scores : List ℚ) (nPaths top_k offset : Nat)
    (hk : 0 < top_k) (hn : nPaths = scores.length) :
    searchRank scores nPaths top_k offset =
      ((rankAll scores).drop offset).take top_k := by
  subst hn
  unfold searchRank
  by_cases h : min (top_k + offset) scores.length ≤ offset
  · rw [if_pos h]
    have hle : scores.length ≤ offset := by
      rcases min_le_iff.mp h with h1 | h1
      · omega
      · exact h1
    have hnil : (rankAll scores).drop offset = [] := by
      apply List.drop_eq_nil_of_le
      rw [rankAll_length]
      exact hle
    rw [hnil, List.take_nil]
  · rw [if_neg h]
    have h1 : min (top_k + offset) scores.length =
        min (top_k + offset) (rankAll scores).length := by
      rw [rankAll_length]
    rw [h1, take_min_self_length, List.take_drop]
    rw [Nat.add_comm top_k offset]

lemma finalScores_length (st : SearcherState) (e : String → List ℚ) (cpos cneg : ℚ)
    (q sim neg : Option String) :
    (finalScores st e cpos cneg q sim neg).length =
      st.normalizedImageFeatures.length := by
  unfold finalScores
  split
  · simp
  · simp [negativeScores, List.length_zip]

lemma positiveVectors_ne_nil_truthy (st : SearcherState) (e : String → List ℚ)
    (q sim : Option String) (h : ¬ positiveVectors st e q sim = []) :
    ¬ (pyTruthy q = false ∧ pyTruthy sim = false) := by
  rintro ⟨hq, hs⟩
  apply h
  have h1 : textPositive e q = [] := by
    apply textPositive_eq_nil
    intro q' hq'
    subst hq'
    simp only [pyTruthy, decide_eq_false_iff_not, not_not] at hq
    exact Or.inl hq
  have h2 : imagePositive st sim = [] := by
    apply imagePositive_eq_nil
    intro t ht
    subst ht
    simp only [pyTruthy, decide_eq_false_iff_not, not_not] at hs
    exact Or.inl hs
  unfold positiveVectors
  rw [h1, h2]
  rfl

/-- When the query resolves at least one positive vector and `top_k > 0`,
`search` returns exactly the `[offset, offset+top_k)` slice of the full stable
descending ranking of `final_scores`, mapped to `(path, score)` pairs. -/
lemma search_eq_slice (st : SearcherState) (e : String → List ℚ) (cpos cneg : ℚ)
    (q neg sim : Option String) (off : Nat) (top_k : Int) (hk : 0 < top_k)
    (hn : st.normalizedImageFeatures.length = st.imagePaths.length)
    (hpos : ¬ positiveVectors st e q sim = []) :
    search st e cpos cneg q top_k neg sim off = Except.ok
      ((((rankAll (finalScores st e cpos cneg q sim neg)).drop off).take
        top_k.toNat).map (fun p => (st.imagePaths.getD p.1 "", p.2))) := by
  have hgate : ¬ (top_k ≤ 0 ∨ (pyTruthy q = false ∧ pyTruthy sim = false)) := by
    rintro (h1 | h2)
    · omega
    · exact positiveVectors_ne_nil_truthy st e q sim hpos h2
  unfold search
  rw [if_neg hgate, if_neg hpos]
  show Except.ok ((searchRank (finalScores st e cpos cneg q sim neg)
      st.imagePaths.length top_k.toNat off).map
    (fun p => (st.imagePaths.getD p.1 "", p.2))) = _
  rw [searchRank_eq _ _ _ _ (by omega) (by rw [finalScores_length]; exact hn.symm)]

/-! ## Claim C7: top-k / offset pagination consistency -/

/-- C7: for a fixed query and index snapshot and every `k > 0`, `search` selects
the top `(topK + offset)` entries of the stable descending ranking and returns
the slice `[offset, offset + topK)` (second conjunct), and consequently paging
is consistent: `search(topK=k, offset=0) ++ search(topK=k, offset=k)` equals
`search(topK=2k, offset=0)` (first conjunct) — no item skipped or duplicated. -/
theorem search_paging (st : SearcherState) (e : String → List ℚ) (cpos cneg : ℚ)
    (q neg sim : Option String) (k : Int) (off : Nat) (hk : 0 < k)
    (hn : st.normalizedImageFeatures.length = st.imagePaths.length) :
    ((search st e cpos cneg q k neg sim 0).bind (fun r1 =>
        (search st e cpos cneg q k neg sim k.toNat).map (fun r2 => r1 ++ r2))) =
      search st e cpos cneg q (2 * k) neg sim 0 ∧
    (¬ positiveVectors st e q sim = [] →
      search st e cpos cneg q k neg sim off = Except.ok
        ((((rankAll (finalScores st e cpos cneg q sim neg)).drop off).take
          k.toNat).map (fun p => (st.imagePaths.getD p.1 "", p.2)))) := by
  constructor
  · by_cases hpos : positiveVectors st e q sim = []
    · rw [search_eq_ok_nil_of_pos_nil hpos, search_eq_ok_nil_of_pos_nil hpos,
        search_eq_ok_nil_of_pos_nil hpos]
      rfl
    · have h2k : (0 : Int) < 2 * k := by omega
      rw [search_eq_slice st e cpos cneg q neg sim 0 k hk hn hpos,
        search_eq_slice st e cpos cneg q neg sim k.toNat k hk hn hpos,
        search_eq_slice st e cpos cneg q neg sim 0 (2 * k) h2k hn hpos]
      show Except.ok _ = Except.ok _
      simp only [List.drop_zero, ← List.map_append]
      have h2 : (2 * k).toNat = k.toNat + k.toNat := by omega
      rw [h2, List.take_drop]
      have h3 : (rankAll (finalScores st e cpos cneg q sim neg)).take k.toNat =
          ((rankAll (finalScores st e cpos cneg q sim neg)).take
            (k.toNat + k.toNat)).take k.toNat := by
        rw [List.take_take, Nat.min_eq_left (Nat.le_add_right _ _)]
      rw [h3, List.take_append_drop]
  · intro hpos
    exact search_eq_slice st e cpos cneg q neg sim off k hk hn hpos

/-- Witness for C7 at a concrete two-row snapshot with `k = 1`. -/
theorem search_paging_witness :
    (0 : Int) < 1 ∧
    ((⟨[[1],[2]], ["a","b"], [[1],[2]]⟩ :
        SearcherState).normalizedImageFeatures.length =
      (⟨[[1],[2]], ["a","b"], [[1],[2]]⟩ : SearcherState).imagePaths.length) ∧
    (((search ⟨[[1],[2]], ["a","b"], [[1],[2]]⟩ (fun _ => [1]) 1 1 (some "q") 1
          none none 0).bind (fun r1 =>
        (search ⟨[[1],[2]], ["a","b"], [[1],[2]]⟩ (fun _ => [1]) 1 1 (some "q") 1
          none none (1 : Int).toNat).map (fun r2 => r1 ++ r2))) =
      search ⟨[[1],[2]], ["a","b"], [[1],[2]]⟩ (fun _ => [1]) 1 1 (some "q")
        (2 * 1) none none 0 ∧
    (¬ positiveVectors ⟨[[1],[2]], ["a","b"], [[1],[2]]⟩ (fun _ => [1]) (some "q")
        none = [] →
      search ⟨[[1],[2]], ["a","b"], [[1],[2]]⟩ (fun _ => [1]) 1 1 (some "q") 1
          none none 0 = Except.ok
        ((((rankAll (finalScores ⟨[[1],[2]], ["a","b"], [[1],[2]]⟩ (fun _ => [1])
            1 1 (some "q") none none)).drop 0).take (1 : Int).toNat).map
          (fun p => ((⟨[[1],[2]], ["a","b"], [[1],[2]]⟩ :
            SearcherState).imagePaths.getD p.1 "", p.2))))) :=
  ⟨by decide, by decide,
   search_paging ⟨[[1],[2]], ["a","b"], [[1],[2]]⟩ (fun _ => [1]) 1 1 (some "q")
     none none 1 0 (by decide) (by decide)⟩

/-! ## `path_to_idx` lookup lemmas -/

lemma pathToIdx_eq {l : List P} (hnd : l.Nodup) :
    pathToIdx l = (l.enum).map (fun ip => (ip.2, ip.1)) := by
  unfold pathToIdx
  apply pyDict_eq_self
  have h : ((l.enum).map (fun ip : Nat × P => (ip.2, ip.1))).map Prod.fst = l := by
    rw [List.map_map]
    exact List.enum_map_snd l
  rw [h]
  exact hnd

lemma pyGet_enumFrom_swap (l : List P) :
    ∀ (n : Nat) (a : P) (i : Nat),
      pyGet ((l.enumFrom n).map (fun ip => (ip.2, ip.1))) a = some i →
      n ≤ i ∧ l[i - n]? = some a := by
  induction l with
  | nil =>
    intro n a i h
    simp [pyGet, List.enumFrom] at h
  | cons b rest ih =>
    intro n a i h
    unfold pyGet at h
    simp only [List.enumFrom, List.map_cons, List.find?_cons] at h
    by_cases hba : b = a
    · rw [show (decide ((b, n).1 = a)) = true from decide_eq_true hba] at h
      have hni : n = i := by simpa using h
      subst hni
      refine ⟨Nat.le_refl _, ?_⟩
      rw [Nat.sub_self]
      simp [hba]
    · rw [show (decide ((b, n).1 = a)) = false from decide_eq_false hba] at h
      have h' : pyGet ((rest.enumFrom (n + 1)).map (fun ip => (ip.2, ip.1))) a =
          some i := h
      obtain ⟨h1, h2⟩ := ih (n + 1) a i h'
      refine ⟨by omega, ?_⟩
      have hin : i - n = (i - (n + 1)) + 1 := by omega
      rw [hin]
      simpa using h2

/-- A successful `path_to_idx` lookup on a duplicate-free path list returns the
index of the looked-up path. -/
lemma pyGet_pathToIdx_some {l : List P} (hnd : l.Nodup) {a : P} {i : Nat}
    (h : pyGet (pathToIdx l) a = some i) : l[i]? = some a := by
  rw [pathToIdx_eq hnd] at h
  have h' : pyGet ((l.enumFrom 0).map (fun ip => (ip.2, ip.1))) a = some i := h
  have h2 := pyGet_enumFrom_swap l 0 a i h'
  simpa using h2.2

lemma getD_inj_of_nodup {l : List P} (hnd : l.Nodup) {i j : Nat}
    (hi : i < l.length) (hj : j < l.length) (d : P)
    (h : l.getD i d = l.getD j d) : i = j := by
  rw [List.getD_eq_getElem?_getD, List.getD_eq_getElem?_getD,
    List.getElem?_eq_getElem hi, List.getElem?_eq_getElem hj] at h
  simp only [Option.getD_some] at h
  exact (List.Nodup.getElem_inj_iff hnd).mp h

/-! ## rankAll structure lemmas -/

lemma rankAll_fst_perm (scores : List ℚ) :
    List.Perm ((rankAll scores).map Prod.fst) (List.range scores.length) := by
  have h := (List.perm_insertionSort scoreOrder
    ((List.range scores.length).zip scores)).map Prod.fst
  rwa [List.map_fst_zip _ _ (by simp)] at h

lemma rankAll_fst_nodup (scores : List ℚ) :
    ((rankAll scores).map Prod.fst).Nodup :=
  ((rankAll_fst_perm scores).nodup_iff).mpr (List.nodup_range _)

lemma rankAll_fst_lt {scores : List ℚ} {p : Nat × ℚ} (hp : p ∈ rankAll scores) :
    p.1 < scores.length := by
  have h : p.1 ∈ (rankAll scores).map Prod.fst := List.mem_map_of_mem _ hp
  have h2 := (rankAll_fst_perm scores).mem_iff.mp h
  simpa using h2

lemma mem_rankAll_fst {scores : List ℚ} {qi : Nat} (h : qi < scores.length) :
    qi ∈ (rankAll scores).map Prod.fst :=
  (rankAll_fst_perm scores).mem_iff.mpr (List.mem_range.mpr h)

lemma finalScoresByImage_length (st : SearcherState) (e : String → List ℚ)
    (cneg : ℚ) (qi : Nat) (neg : Option String) :
    (finalScoresByImage st e cneg qi neg).length =
      st.normalizedImageFeatures.length := by
  unfold finalScoresByImage
  split
  · simp
  · simp [negativeScores, List.length_zip]

/-! ## filter-by-index length lemmas -/

lemma filter_ne_eq_self_of_not_mem {l : List (Nat × ℚ)} {qi : Nat}
    (hq : qi ∉ l.map Prod.fst) :
    l.filter (fun p => decide (¬ p.1 = qi)) = l := by
  apply List.filter_eq_self.mpr
  intro x hx
  have hx1 : x.1 ≠ qi := fun hh => hq (List.mem_map.mpr ⟨x, hx, hh⟩)
  simpa using hx1

lemma length_filter_ne_of_mem {l : List (Nat × ℚ)} {qi : Nat}
    (hnd : (l.map Prod.fst).Nodup) (hq : qi ∈ l.map Prod.fst) :
    (l.filter (fun p => decide (¬ p.1 = qi))).length = l.length - 1 := by
  induction l with
  | nil => simp at hq
  | cons a rest ih =>
    simp only [List.map_cons, List.nodup_cons] at hnd
    simp only [List.map_cons, List.mem_cons] at hq
    by_cases ha : a.1 = qi
    · rw [List.filter_cons]
      rw [show (decide (¬ a.1 = qi)) = false from decide_eq_false (by simpa using ha)]
      rw [if_neg Bool.false_ne_true]
      have hrest : rest.filter (fun p => decide (¬ p.1 = qi)) = rest := by
        apply filter_ne_eq_self_of_not_mem
        rw [← ha]
        exact hnd.1
      rw [hrest]
      simp
    · rw [List.filter_cons]
      rw [show (decide (¬ a.1 = qi)) = true from decide_eq_true (by simpa using ha)]
      rw [if_pos rfl]
      have hq' : qi ∈ rest.map Prod.fst := by
        rcases hq with h1 | h1
        · exact absurd h1.symm ha
        · exact h1
      have hne : rest ≠ [] := by
        intro hnil
        rw [hnil] at hq'
        simp at hq'
      have hlen : 1 ≤ rest.length := by
        cases rest
        · exact absurd rfl hne
        · simp
      rw [List.length_cons, ih hnd.2 hq']
      simp only [List.length_cons]
      omega

/-! ## Claim C6: similarity-to-item search never returns the item itself -/

/-- C6: for every `top_k > 0` and every `offset`, a successful
`search_by_image` call for item `X` never returns `X` among the results, and the
row for `X` costs no result slot: the result length is exactly
`min top_k (n - 1 - offset)` where `n` is the corpus size — i.e. the row is
effectively removed from ranking consideration, not merely ranked last. -/
theorem search_by_image_excludes_self (st : SearcherState) (e : String → List ℚ)
    (cneg : ℚ) (imagePath : String) (top_k : Int) (neg : Option String) (off : Nat)
    (hk : 0 < top_k)
    (hn : st.normalizedImageFeatures.length = st.imagePaths.length)
    (hnd : st.imagePaths.Nodup) (rs : List (String × ℚ))
    (hok : search_by_image st e cneg imagePath top_k neg off = Except.ok rs) :
    imagePath ∉ rs.map Prod.fst ∧
    rs.length = min top_k.toNat (st.imagePaths.length - 1 - off) := by
  unfold search_by_image at hok
  rw [if_neg (by omega)] at hok
  cases hqi : pyGet (pathToIdx st.imagePaths) imagePath with
  | none =>
    rw [hqi] at hok
    cases hok
  | some qidx =>
    rw [hqi] at hok
    injection hok with hrs
    have hrs' : rs =
        ((((((rankAll (finalScoresByImage st e cneg qidx neg)).take
          (min (top_k.toNat + off + 1) st.imagePaths.length)).filter
            (fun p => decide (¬ p.1 = qidx))).map
              (fun p => (st.imagePaths.getD p.1 "", p.2))).drop off).take
                top_k.toNat) := hrs.symm
    have hqe : st.imagePaths[qidx]? = some imagePath := pyGet_pathToIdx_some hnd hqi
    obtain ⟨hqlt, hqget⟩ := List.getElem?_eq_some_iff.mp hqe
    have hqD : st.imagePaths.getD qidx "" = imagePath := by
      rw [List.getD_eq_getElem?_getD, hqe]
      rfl
    have hslen : (finalScoresByImage st e cneg qidx neg).length =
        st.imagePaths.length := by
      rw [finalScoresByImage_length]
      exact hn
    have hrlen : (rankAll (finalScoresByImage st e cneg qidx neg)).length =
        st.imagePaths.length := by
      rw [rankAll_length]
      exact hslen
    constructor
    · intro hmem
      rw [hrs'] at hmem
      rcases List.mem_map.mp hmem with ⟨x, hx, hxfst⟩
      have hx2 : x ∈ ((((rankAll (finalScoresByImage st e cneg qidx neg)).take
          (min (top_k.toNat + off + 1) st.imagePaths.length)).filter
            (fun p => decide (¬ p.1 = qidx))).map
              (fun p => (st.imagePaths.getD p.1 "", p.2))) :=
        List.mem_of_mem_drop (List.mem_of_mem_take hx)
      rcases List.mem_map.mp hx2 with ⟨p, hp, hpx⟩
      have hpfilter := List.of_mem_filter hp
      have hpne : p.1 ≠ qidx := by simpa using hpfilter
      have hpmem : p ∈ rankAll (finalScoresByImage st e cneg qidx neg) :=
        List.mem_of_mem_take (List.mem_of_mem_filter hp)
      have hplt : p.1 < st.imagePaths.length := by
        have := rankAll_fst_lt hpmem
        omega
      have hpath : st.imagePaths.getD p.1 "" = imagePath := by
        rw [← hpx] at hxfst
        simpa using hxfst
      apply hpne
      apply getD_inj_of_nodup hnd hplt hqlt ""
      rw [hpath, hqD]
    · rw [hrs']
      rw [List.length_take, List.length_drop, List.length_map]
      set K := top_k.toNat with hK
      have hKpos : 0 < K := by omega
      set n := st.imagePaths.length with hnn
      have htr_nodup : ((((rankAll (finalScoresByImage st e cneg qidx neg)).take
          (min (K + off + 1) n)).map Prod.fst)).Nodup := by
        rw [List.map_take]
        exact List.Nodup.sublist (List.take_sublist _ _) (rankAll_fst_nodup _)
      by_cases hble : K + off + 1 ≤ n
      · have hfetch : min (K + off + 1) n = K + off + 1 := Nat.min_eq_left hble
        rw [hfetch]
        have hlen_tr : ((rankAll (finalScoresByImage st e cneg qidx neg)).take
            (K + off + 1)).length = K + off + 1 := by
          rw [List.length_take, hrlen]
          omega
        by_cases hmem : qidx ∈ ((rankAll (finalScoresByImage st e cneg qidx
            neg)).take (K + off + 1)).map Prod.fst
        · rw [length_filter_ne_of_mem (by rw [← hfetch]; exact htr_nodup)
            hmem, hlen_tr]
          omega
        · rw [filter_ne_eq_self_of_not_mem hmem, hlen_tr]
          omega
      · have hfetch : min (K + off + 1) n = n := Nat.min_eq_right (by omega)
        rw [hfetch]
        have htake : (rankAll (finalScoresByImage st e cneg qidx neg)).take n =
            rankAll (finalScoresByImage st e cneg qidx neg) := by
          rw [← hrlen, List.take_length]
        rw [htake]
        have hmem : qidx ∈ (rankAll (finalScoresByImage st e cneg qidx
            neg)).map Prod.fst := by
          apply mem_rankAll_fst
          omega
        rw [length_filter_ne_of_mem (rankAll_fst_nodup _) hmem, hrlen]

/-- Witness for C6 at a three-row concrete snapshot: searching similar to `"a"`
returns the other two rows and never `"a"` itself. -/
theorem search_by_image_excludes_self_witness :
    (0 : Int) < 2 ∧
    (⟨[[0,1],[1,0],[1,1]], ["a","b","c"], [[0,1],[1,0],[1,1]]⟩ :
        SearcherState).normalizedImageFeatures.length =
      (⟨[[0,1],[1,0],[1,1]], ["a","b","c"], [[0,1],[1,0],[1,1]]⟩ :
        SearcherState).imagePaths.length ∧
    (⟨[[0,1],[1,0],[1,1]], ["a","b","c"], [[0,1],[1,0],[1,1]]⟩ :
        SearcherState).imagePaths.Nodup ∧
    ("a" ∉ ([("c", (1 : ℚ)), ("b", 0)].map Prod.fst) ∧
      ([("c", (1 : ℚ)), ("b", 0)].length =
        min (2 : Int).toNat
          ((⟨[[0,1],[1,0],[1,1]], ["a","b","c"], [[0,1],[1,0],[1,1]]⟩ :
            SearcherState).imagePaths.length - 1 - 0))) :=
  ⟨by decide, by decide, by decide,
   search_by_image_excludes_self
     ⟨[[0,1],[1,0],[1,1]], ["a","b","c"], [[0,1],[1,0],[1,1]]⟩ (fun _ => [1]) 1
     "a" 2 none 0 (by decide) (by decide) (by decide) [("c", 1), ("b", 0)]
     (by norm_num +decide [search_by_image, finalScoresByImage, negKeywords,
       negativeScores, pathToIdx, pyDict, pyGet, dinsert, rankAll, searchRank,
       List.insertionSort, List.orderedInsert, scoreOrder, dot, vmean, vsum, vadd,
       smul, List.enum, List.enumFrom, List.find?, List.foldl, List.any,
       Option.map, List.zip, List.zipWith, Function.comp])⟩

/-! ## Claim C2: a run detecting no change is a no-op that does not save -/

/-- C2: when the disk scan matches the stored index exactly (same path set, and
every readable file hashes to its stored hash), `update` reports
`new = modified = deleted = moved = 0` together with the current total entry
count, passes nothing to the embedder, and does not call `_save_index` at all
(`saved = none`), leaving the persisted index file untouched. -/
theorem update_no_change (data : IndexData P H V) (disk : List P)
    (hashOf : P → Option H) (embed : P → Option V)
    (hlenH : data.hashes.length = data.paths.length)
    (hnd : data.paths.Nodup)
    (hdisk : ∀ p, p ∈ disk ↔ p ∈ data.paths)
    (hmatch : ∀ p ∈ disk, ∀ h, hashOf p = some h →
      pyGet (data.paths.zip data.hashes) p = some (some h)) :
    update data disk hashOf embed =
      ⟨⟨0, 0, 0, 0, data.paths.length⟩, none, []⟩ := by
  have hle : data.paths.length ≤ data.hashes.length := by omega
  have hidx : (data.paths.zip data.hashes).map Prod.fst = data.paths :=
    List.map_fst_zip _ _ hle
  have hkeys : ((data.paths.zip data.hashes).map Prod.fst).Nodup := by
    rw [hidx]
    exact hnd
  have h1 : disk.filter
      (fun p => decide (¬ p ∈ (data.paths.zip data.hashes).map Prod.fst)) = [] := by
    apply List.filter_eq_nil_iff.mpr
    intro p hp
    simp only [hidx, decide_eq_true_eq, not_not]
    exact (hdisk p).mp hp
  have h2 : ((data.paths.zip data.hashes).map Prod.fst).filter
      (fun p => decide (¬ p ∈ disk)) = [] := by
    apply List.filter_eq_nil_iff.mpr
    intro p hp
    rw [hidx] at hp
    simp only [decide_eq_true_eq, not_not]
    exact (hdisk p).mpr hp
  have h3 : (disk.filter
      (fun p => decide (p ∈ (data.paths.zip data.hashes).map Prod.fst))).filter
        (fun p => match hashOf p with
          | none => false
          | some h =>
            decide (¬ pyGet (data.paths.zip data.hashes) p = some (some h))) = [] := by
    apply List.filter_eq_nil_iff.mpr
    intro p hp
    have hpd : p ∈ disk := List.mem_of_mem_filter hp
    cases hh : hashOf p with
    | none => simp
    | some h =>
      simp only [decide_eq_true_eq, not_not]
      exact hmatch p hpd h hh
  have hscan : scanAndCompare (data.paths.zip data.hashes) disk hashOf =
      ⟨[], [], [], []⟩ := by
    simp only [scanAndCompare]
    rw [h1, h2, h3]
    simp [detectMovesLoop]
  simp only [update]
  rw [pyDict_eq_self hkeys, hscan]
  simp

/-- Witness for C2: a two-entry index whose disk scan is unchanged. -/
theorem update_no_change_witness :
    ((⟨[10, 20], [0, 1], [some 0, some 1]⟩ :
        IndexData (Fin 3) (Fin 3) ℚ).hashes.length =
      (⟨[10, 20], [0, 1], [some 0, some 1]⟩ :
        IndexData (Fin 3) (Fin 3) ℚ).paths.length) ∧
    (⟨[10, 20], [0, 1], [some 0, some 1]⟩ :
      IndexData (Fin 3) (Fin 3) ℚ).paths.Nodup ∧
    update (⟨[10, 20], [0, 1], [some 0, some 1]⟩ : IndexData (Fin 3) (Fin 3) ℚ)
        [1, 0] (fun p => some p) (fun _ => some 99) =
      ⟨⟨0, 0, 0, 0, 2⟩, none, []⟩ :=
  ⟨by decide, by decide,
   update_no_change (⟨[10, 20], [0, 1], [some 0, some 1]⟩ :
       IndexData (Fin 3) (Fin 3) ℚ) [1, 0] (fun p => some p) (fun _ => some 99)
     (by decide) (by decide) (by decide) (by decide)⟩

/-! ## Lemmas for move detection (claim C1) -/

lemma filter_eq_singleton {β : Type} {l : List β} {a : β} {p : β → Bool}
    (hnd : l.Nodup) (ha : a ∈ l) (hp : ∀ x ∈ l, p x = true ↔ x = a) :
    l.filter p = [a] := by
  induction l with
  | nil => cases ha
  | cons b rest ih =>
    rw [List.filter_cons]
    simp only [List.nodup_cons] at hnd
    rcases List.mem_cons.mp ha with hab | har
    · subst hab
      rw [show p a = true from (hp a (by simp)).mpr rfl, if_pos rfl]
      have hrest : rest.filter p = [] := by
        apply List.filter_eq_nil_iff.mpr
        intro x hx hpx
        have hxa : x = a := (hp x (List.mem_cons_of_mem _ hx)).mp hpx
        exact hnd.1 (hxa ▸ hx)
      rw [hrest]
    · have hpb : p b = false := by
        cases hpb : p b
        · rfl
        · have hba : b = a := (hp b (by simp)).mp hpb
          exact absurd (hba ▸ har) hnd.1
      rw [hpb, if_neg Bool.false_ne_true]
      exact ih hnd.2 har (fun x hx => hp x (List.mem_cons_of_mem _ hx))

lemma pyGet_zip_eq {β : Type} {ps : List P} (hnd : ps.Nodup) :
    ∀ (hs : List β) (i : Nat) (a : P) (b : β), ps[i]? = some a → hs[i]? = some b →
      pyGet (ps.zip hs) a = some b := by
  induction ps with
  | nil =>
    intro hs i a b hpa _
    simp at hpa
  | cons p pr ih =>
    intro hs i a b hpa hhb
    cases hs with
    | nil => simp at hhb
    | cons q hr =>
      cases i with
      | zero =>
        have hpa' : p = a := by simpa using hpa
        have hhb' : q = b := by simpa using hhb
        unfold pyGet
        simp only [List.zip_cons_cons, List.find?_cons]
        rw [show decide ((p, q).1 = a) = true from decide_eq_true hpa']
        simp [hhb']
      | succ i =>
        have har : a ∈ pr := List.getElem?_mem (by simpa using hpa)
        have hnp : ¬ p = a := fun hh =>
          (List.nodup_cons.mp hnd).1 (hh ▸ har)
        unfold pyGet
        simp only [List.zip_cons_cons, List.find?_cons]
        rw [show decide ((p, q).1 = a) = false from decide_eq_false hnp]
        exact ih (List.nodup_cons.mp hnd).2 hr i a b (by simpa using hpa)
          (by simpa using hhb)

lemma pyGet_enumFrom_of_getElem (l : List P) :
    ∀ (n i : Nat) (a : P), l.Nodup → l[i]? = some a →
      pyGet ((l.enumFrom n).map (fun ip => (ip.2, ip.1))) a = some (n + i) := by
  induction l with
  | nil =>
    intro n i a _ h
    simp at h
  | cons b rest ih =>
    intro n i a hnd h
    unfold pyGet
    simp only [List.enumFrom, List.map_cons, List.find?_cons]
    cases i with
    | zero =>
      have hba : b = a := by simpa using h
      rw [show decide ((b, n).1 = a) = true from decide_eq_true hba]
      simp
    | succ i =>
      have har : a ∈ rest := List.getElem?_mem (by simpa using h)
      have hba : ¬ b = a := fun hh => (List.nodup_cons.mp hnd).1 (hh ▸ har)
      rw [show decide ((b, n).1 = a) = false from decide_eq_false hba]
      have hrec := ih (n + 1) i a (List.nodup_cons.mp hnd).2 (by simpa using h)
      have harith : n + 1 + i = n + (i + 1) := by omega
      rw [harith] at hrec
      exact hrec

/-- Converse `path_to_idx` lookup: a path at index `i` of a duplicate-free list
is found at index `i`. -/
lemma pyGet_pathToIdx_of_getElem {l : List P} (hnd : l.Nodup) {i : Nat} {a : P}
    (h : l[i]? = some a) : pyGet (pathToIdx l) a = some i := by
  rw [pathToIdx_eq hnd]
  have hrec := pyGet_enumFrom_of_getElem l 0 i a hnd h
  simpa using hrec

lemma filterEntries_nil_remove :
    ∀ (fs : List V) (ps : List P) (hs : List (Option H)),
      fs.length = ps.length → hs.length = ps.length →
      filterEntries fs ps hs [] = ⟨fs, ps, hs⟩ := by
  intro fs
  induction fs with
  | nil =>
    intro ps hs h1 h2
    cases ps with
    | nil =>
      cases hs with
      | nil => rfl
      | cons q hr => simp at h2
    | cons p pr => simp at h1
  | cons f fr ih =>
    intro ps hs h1 h2
    cases ps with
    | nil => simp at h1
    | cons p pr =>
      cases hs with
      | nil => simp at h2
      | cons q hr =>
        show (if p ∈ ([] : List P) then filterEntries fr pr hr []
          else ⟨f :: (filterEntries fr pr hr []).features,
            p :: (filterEntries fr pr hr []).paths,
            q :: (filterEntries fr pr hr []).hashes⟩) = _
        rw [if_neg (List.not_mem_nil p)]
        rw [ih pr hr (by simpa using h1) (by simpa using h2)]

/-! ## Claim C1: a pure rename is detected as a move and not re-embedded -/

/-- C1: if the index holds `(pathA, h, v)` at row `iA`, `pathA` disappears from
disk, `pathB` appears with the same content hash `h`, and nothing else changed,
then `update` reports `moved = 1`, `modified = 0`, never hands `pathB` (or
anything) to the embedder, and the saved store still holds `v` at row `iA`, now
labelled `pathB`. -/
theorem update_move_detection (data : IndexData P H V) (disk : List P)
    (hashOf : P → Option H) (embed : P → Option V)
    (pathA pathB : P) (h : H) (iA : Nat) (v : V)
    (hlenF : data.features.length = data.paths.length)
    (hlenH : data.hashes.length = data.paths.length)
    (hnd : data.paths.Nodup) (hdiskN : disk.Nodup)
    (hgetA : data.paths[iA]? = some pathA)
    (hhashA : data.hashes[iA]? = some (some h))
    (hfeatA : data.features[iA]? = some v)
    (hAB : ¬ pathA = pathB) (hBnew : ¬ pathB ∈ data.paths)
    (hdisk : ∀ p, p ∈ disk ↔ (p ∈ data.paths ∧ ¬ p = pathA) ∨ p = pathB)
    (hhashB : hashOf pathB = some h)
    (hunch : ∀ p ∈ data.paths, ¬ p = pathA → ∃ hp, hashOf p = some hp ∧
      pyGet (data.paths.zip data.hashes) p = some (some hp)) :
    (update data disk hashOf embed).summary.moved = 1 ∧
    (update data disk hashOf embed).summary.modified = 0 ∧
    ¬ pathB ∈ (update data disk hashOf embed).embedded ∧
    ∃ st, (update data disk hashOf embed).saved = some st ∧
      st.paths[iA]? = some pathB ∧ st.features[iA]? = some v := by
  have hle : data.paths.length ≤ data.hashes.length := by omega
  have hidx : (data.paths.zip data.hashes).map Prod.fst = data.paths :=
    List.map_fst_zip _ _ hle
  have hkeys : ((data.paths.zip data.hashes).map Prod.fst).Nodup := by
    rw [hidx]
    exact hnd
  have hApaths : pathA ∈ data.paths := List.getElem?_mem hgetA
  have hBdisk : pathB ∈ disk := (hdisk pathB).mpr (Or.inr rfl)
  have hAdisk : ¬ pathA ∈ disk := by
    intro hc
    rcases (hdisk pathA).mp hc with ⟨-, hne⟩ | he
    · exact hne rfl
    · exact hAB he
  have h1 : disk.filter
      (fun p => decide (¬ p ∈ (data.paths.zip data.hashes).map Prod.fst)) =
      [pathB] := by
    apply filter_eq_singleton hdiskN hBdisk
    intro x hx
    rw [hidx]
    simp only [decide_eq_true_eq]
    constructor
    · intro hxnot
      rcases (hdisk x).mp hx with ⟨hxp, -⟩ | he
      · exact absurd hxp hxnot
      · exact he
    · intro hxB
      subst hxB
      exact hBnew
  have h2 : ((data.paths.zip data.hashes).map Prod.fst).filter
      (fun p => decide (¬ p ∈ disk)) = [pathA] := by
    rw [hidx]
    apply filter_eq_singleton hnd hApaths
    intro x hx
    simp only [decide_eq_true_eq]
    constructor
    · intro hxnot
      by_contra hxA
      exact hxnot ((hdisk x).mpr (Or.inl ⟨hx, hxA⟩))
    · intro hxA
      subst hxA
      exact hAdisk
  have h3 : (disk.filter
      (fun p => decide (p ∈ (data.paths.zip data.hashes).map Prod.fst))).filter
        (fun p => match hashOf p with
          | none => false
          | some hc =>
            decide (¬ pyGet (data.paths.zip data.hashes) p = some (some hc))) =
      [] := by
    apply List.filter_eq_nil_iff.mpr
    intro p hp
    have hpd : p ∈ disk := List.mem_of_mem_filter hp
    have hpp : p ∈ data.paths := by
      have := List.of_mem_filter hp
      rw [hidx] at this
      simpa using this
    have hpA : ¬ p = pathA := by
      intro he
      exact hAdisk (he ▸ hpd)
    obtain ⟨hpv, hhp, hget⟩ := hunch p hpp hpA
    rw [hhp]
    simp [hget]
  have hgA : pyGet (data.paths.zip data.hashes) pathA = some (some h) :=
    pyGet_zip_eq hnd data.hashes iA pathA (some h) hgetA hhashA
  have hdht : List.foldl (fun d p =>
      match pyGet (data.paths.zip data.hashes) p with
      | some (some h) => dinsert d h p
      | _ => d) [] [pathA] = [(h, pathA)] := by
    simp only [List.foldl_cons, List.foldl_nil, hgA]
    simp [dinsert]
  have hloop : detectMovesLoop hashOf [pathB] [(h, pathA)] [] [] =
      ([], [(pathA, pathB)], []) := by
    have hfind : pyGet [(h, pathA)] h = some pathA := by
      simp [pyGet]
    simp [detectMovesLoop, hhashB, hfind]
  have hscan : scanAndCompare (data.paths.zip data.hashes) disk hashOf =
      ⟨[], [], [], [(pathA, pathB)]⟩ := by
    simp only [scanAndCompare]
    rw [h1, h2, h3, hdht, hloop]
    rfl
  have hidxA : pyGet (pathToIdx data.paths) pathA = some iA :=
    pyGet_pathToIdx_of_getElem hnd hgetA
  have happly : applyMoves data.paths [(pathA, pathB)] =
      data.paths.set iA pathB := by
    simp [applyMoves, applyMoveStep, hidxA]
  have hkept : filterEntries (V := V) (P := P) (H := H) data.features
      (data.paths.set iA pathB) data.hashes [] =
      ⟨data.features, data.paths.set iA pathB, data.hashes⟩ :=
    filterEntries_nil_remove data.features (data.paths.set iA pathB) data.hashes
      (by simp [hlenF]) (by simp [hlenH])
  have hproc : processChanges data [] [] [] [(pathA, pathB)] embed hashOf =
      (⟨data.features, data.paths.set iA pathB, data.hashes⟩, []) := by
    simp only [processChanges, happly, List.nil_append, hkept, embedLoop]
    simp
  have hupd : update data disk hashOf embed =
      ⟨⟨0, 0, 0, 1, (data.paths.set iA pathB).length⟩,
       some ⟨data.features, data.paths.set iA pathB, data.hashes⟩, []⟩ := by
    simp only [update]
    rw [pyDict_eq_self hkeys, hscan]
    rw [if_neg (by simp)]
    rw [hproc]
    rfl
  rw [hupd]
  have hiAlt : iA < data.paths.length := (List.getElem?_eq_some_iff.mp hgetA).1
  refine ⟨rfl, rfl, by simp, ⟨data.features, data.paths.set iA pathB, data.hashes⟩,
    rfl, ?_, hfeatA⟩
  exact List.getElem?_set_self hiAlt

/-- Witness for C1: index `{0 ↦ (hash 0, value 100), 1 ↦ (hash 1, value 200)}`;
path `0` is renamed to path `2` (same hash `0`), path `1` unchanged. -/
theorem update_move_detection_witness :
    ((update (⟨[100, 200], [0, 1], [some 0, some 1]⟩ :
        IndexData (Fin 4) (Fin 4) ℚ) [2, 1]
        (fun p => if p = 0 then some 0 else if p = 1 then some 1 else
          if p = 2 then some 0 else none)
        (fun _ => some 7)).summary.moved = 1 ∧
     (update (⟨[100, 200], [0, 1], [some 0, some 1]⟩ :
        IndexData (Fin 4) (Fin 4) ℚ) [2, 1]
        (fun p => if p = 0 then some 0 else if p = 1 then some 1 else
          if p = 2 then some 0 else none)
        (fun _ => some 7)).summary.modified = 0 ∧
     ¬ (2 : Fin 4) ∈ (update (⟨[100, 200], [0, 1], [some 0, some 1]⟩ :
        IndexData (Fin 4) (Fin 4) ℚ) [2, 1]
        (fun p => if p = 0 then some 0 else if p = 1 then some 1 else
          if p = 2 then some 0 else none)
        (fun _ => some 7)).embedded ∧
     ∃ st, (update (⟨[100, 200], [0, 1], [some 0, some 1]⟩ :
        IndexData (Fin 4) (Fin 4) ℚ) [2, 1]
        (fun p => if p = 0 then some 0 else if p = 1 then some 1 else
          if p = 2 then some 0 else none)
        (fun _ => some 7)).saved = some st ∧
       st.paths[0]? = some 2 ∧ st.features[0]? = some 100) :=
  update_move_detection (⟨[100, 200], [0, 1], [some 0, some 1]⟩ :
      IndexData (Fin 4) (Fin 4) ℚ) [2, 1]
    (fun p => if p = 0 then some 0 else if p = 1 then some 1 else
      if p = 2 then some 0 else none)
    (fun _ => some 7) 0 2 0 0 100
    (by decide) (by decide) (by decide) (by decide) (by decide) (by decide)
    (by decide) (by decide) (by decide) (by decide) (by decide) (by decide)

/-! ## Structural lemmas for the store invariant (claim C9) -/

/-- Each path scanned by the move-detection loop ends up in at most one of the
`moved`-new-paths and `truly_new` buckets; both stay duplicate-free and within
the scanned paths. -/
lemma detectMovesLoop_facts (hashOf : P → Option H) :
    ∀ (l : List P) (dht : List (H × P)) (mv : List (P × P)) (nw : List P),
      (∀ x ∈ (detectMovesLoop hashOf l dht mv nw).2.1.map Prod.snd,
        x ∈ mv.map Prod.snd ∨ x ∈ l) ∧
      (∀ x ∈ (detectMovesLoop hashOf l dht mv nw).2.2, x ∈ nw ∨ x ∈ l) ∧
      (l.Nodup → (∀ x ∈ l, ¬ x ∈ mv.map Prod.snd ∧ ¬ x ∈ nw) →
        (mv.map Prod.snd ++ nw).Nodup →
        ((detectMovesLoop hashOf l dht mv nw).2.1.map Prod.snd ++
          (detectMovesLoop hashOf l dht mv nw).2.2).Nodup) := by
  intro l
  induction l with
  | nil =>
    intro dht mv nw
    refine ⟨fun x hx => Or.inl hx, fun x hx => Or.inl hx, fun _ _ hc => hc⟩
  | cons p rest ih =>
    intro dht mv nw
    have hpr : ∀ x, x ∈ rest → x ∈ p :: rest := fun x hx => List.mem_cons_of_mem _ hx
    cases hhp : hashOf p with
    | none =>
      have hdl : detectMovesLoop hashOf (p :: rest) dht mv nw =
          detectMovesLoop hashOf rest dht mv nw := by
        simp [detectMovesLoop, hhp]
      rw [hdl]
      obtain ⟨i1, i2, i3⟩ := ih dht mv nw
      refine ⟨fun x hx => (i1 x hx).imp_right (hpr x),
              fun x hx => (i2 x hx).imp_right (hpr x), ?_⟩
      intro hlnd hfree hcomb
      exact i3 (List.nodup_cons.mp hlnd).2
        (fun x hx => hfree x (hpr x hx)) hcomb
    | some hp =>
      cases hfind : pyGet dht hp with
      | some oldPath =>
        have hdl : detectMovesLoop hashOf (p :: rest) dht mv nw =
            detectMovesLoop hashOf rest
              (dht.filter (fun kv => decide (¬ kv.1 = hp)))
              (mv ++ [(oldPath, p)]) nw := by
          simp [detectMovesLoop, hhp, hfind]
        rw [hdl]
        obtain ⟨i1, i2, i3⟩ := ih (dht.filter (fun kv => decide (¬ kv.1 = hp)))
          (mv ++ [(oldPath, p)]) nw
        refine ⟨?_, fun x hx => (i2 x hx).imp_right (hpr x), ?_⟩
        · intro x hx
          rcases i1 x hx with h1 | h1
          · simp only [List.map_append, List.mem_append, List.map_cons,
              List.map_nil, List.mem_singleton] at h1
            rcases h1 with h2 | h2
            · exact Or.inl h2
            · exact Or.inr (h2 ▸ List.mem_cons_self p rest)
          · exact Or.inr (hpr x h1)
        · intro hlnd hfree hcomb
          have hnp := List.nodup_cons.mp hlnd
          have hpfree := hfree p (List.mem_cons_self p rest)
          apply i3 hnp.2
          · intro x hx
            constructor
            · simp only [List.map_append, List.mem_append, List.map_cons,
                List.map_nil, List.mem_singleton]
              rintro (h2 | h2)
              · exact (hfree x (hpr x hx)).1 h2
              · exact hnp.1 (h2 ▸ hx)
            · exact (hfree x (hpr x hx)).2
          · have hshape : (mv ++ [(oldPath, p)]).map Prod.snd ++ nw =
                mv.map Prod.snd ++ p :: nw := by
              simp
            rw [hshape]
            rw [List.nodup_middle]
            rw [List.nodup_cons]
            refine ⟨?_, hcomb⟩
            simp only [List.mem_append]
            rintro (h2 | h2)
            · exact hpfree.1 h2
            · exact hpfree.2 h2
      | none =>
        have hdl : detectMovesLoop hashOf (p :: rest) dht mv nw =
            detectMovesLoop hashOf rest dht mv (nw ++ [p]) := by
          simp [detectMovesLoop, hhp, hfind]
        rw [hdl]
        obtain ⟨i1, i2, i3⟩ := ih dht mv (nw ++ [p])
        refine ⟨fun x hx => (i1 x hx).imp_right (hpr x), ?_, ?_⟩
        · intro x hx
          rcases i2 x hx with h1 | h1
          · rcases List.mem_append.mp h1 with h2 | h2
            · exact Or.inl h2
            · exact Or.inr ((List.mem_singleton.mp h2) ▸ List.mem_cons_self p rest)
          · exact Or.inr (hpr x h1)
        · intro hlnd hfree hcomb
          have hnp := List.nodup_cons.mp hlnd
          have hpfree := hfree p (List.mem_cons_self p rest)
          apply i3 hnp.2
          · intro x hx
            refine ⟨(hfree x (hpr x hx)).1, ?_⟩
            simp only [List.mem_append, List.mem_singleton]
            rintro (h2 | h2)
            · exact (hfree x (hpr x hx)).2 h2
            · exact hnp.1 (h2 ▸ hx)
          · have hshape : mv.map Prod.snd ++ (nw ++ [p]) =
                (mv.map Prod.snd ++ nw) ++ p :: [] := by
              simp
            rw [hshape, List.nodup_middle, List.nodup_cons]
            refine ⟨?_, by simpa using hcomb⟩
            simp only [List.append_nil, List.mem_append]
            rintro (h2 | h2)
            · exact hpfree.1 h2
            · exact hpfree.2 h2

lemma nodup_set_of_not_mem {l : List P} :
    ∀ {i : Nat} {a : P}, l.Nodup → ¬ a ∈ l → (l.set i a).Nodup := by
  induction l with
  | nil =>
    intro i a _ _
    simp
  | cons b rest ih =>
    intro i a hnd ha
    have hnb := List.nodup_cons.mp hnd
    cases i with
    | zero =>
      show (a :: rest).Nodup
      rw [List.nodup_cons]
      refine ⟨fun hc => ha (List.mem_cons_of_mem _ hc), hnb.2⟩
    | succ i =>
      show (b :: rest.set i a).Nodup
      rw [List.nodup_cons]
      constructor
      · intro hc
        rcases List.mem_or_eq_of_mem_set hc with h1 | h1
        · exact hnb.1 h1
        · exact ha (h1 ▸ List.mem_cons_self b rest)
      · exact ih hnb.2 (fun hc => ha (List.mem_cons_of_mem _ hc))

/-- The move-relabelling fold keeps the path list duplicate-free and of the same
length, provided the new labels are fresh and pairwise distinct; every element
of the result comes from the original list or from the new labels. -/
lemma foldl_applyMoveStep_facts (d : List (P × Nat)) (orig : List P) :
    ∀ (mv : List (P × P)) (ps done : List P),
      ps.Nodup →
      (∀ x ∈ ps, x ∈ orig ∨ x ∈ done) →
      (∀ y ∈ mv.map Prod.snd, ¬ y ∈ orig ∧ ¬ y ∈ done) →
      (mv.map Prod.snd).Nodup →
      (mv.foldl (applyMoveStep d) ps).Nodup ∧
      (mv.foldl (applyMoveStep d) ps).length = ps.length ∧
      (∀ x ∈ mv.foldl (applyMoveStep d) ps,
        x ∈ orig ∨ x ∈ done ++ mv.map Prod.snd) := by
  intro mv
  induction mv with
  | nil =>
    intro ps done hnd hmem _ _
    exact ⟨hnd, rfl, fun x hx => (hmem x hx).imp_right (by simp)⟩
  | cons m rest ih =>
    intro ps done hnd hmem hfresh hmvnd
    simp only [List.map_cons, List.nodup_cons] at hmvnd
    have hmfresh := hfresh m.2 (by simp)
    have hnotps : ¬ m.2 ∈ ps := fun hc => by
      rcases hmem m.2 hc with h1 | h1
      · exact hmfresh.1 h1
      · exact hmfresh.2 h1
    have hstep_nodup : (applyMoveStep d ps m).Nodup := by
      unfold applyMoveStep
      cases pyGet d m.1 with
      | none => exact hnd
      | some i => exact nodup_set_of_not_mem hnd hnotps
    have hstep_len : (applyMoveStep d ps m).length = ps.length := by
      unfold applyMoveStep
      cases pyGet d m.1 with
      | none => rfl
      | some i => exact List.length_set ps i m.2
    have hstep_mem : ∀ x ∈ applyMoveStep d ps m,
        x ∈ orig ∨ x ∈ done ++ [m.2] := by
      unfold applyMoveStep
      cases pyGet d m.1 with
      | none =>
        intro x hx
        exact (hmem x hx).imp_right (fun h1 => List.mem_append.mpr (Or.inl h1))
      | some i =>
        intro x hx
        rcases List.mem_or_eq_of_mem_set hx with h1 | h1
        · exact (hmem x h1).imp_right (fun h2 => List.mem_append.mpr (Or.inl h2))
        · exact Or.inr (List.mem_append.mpr (Or.inr (by simp [h1])))
    have hrest := ih (applyMoveStep d ps m) (done ++ [m.2]) hstep_nodup hstep_mem
      (by
        intro y hy
        refine ⟨(hfresh y (List.mem_cons_of_mem _ hy)).1, ?_⟩
        simp only [List.mem_append, List.mem_singleton]
        rintro (h1 | h1)
        · exact (hfresh y (List.mem_cons_of_mem _ hy)).2 h1
        · exact hmvnd.1 (h1 ▸ hy))
      hmvnd.2
    simp only [List.foldl_cons]
    refine ⟨hrest.1, by rw [hrest.2.1, hstep_len], ?_⟩
    intro x hx
    rcases hrest.2.2 x hx with h1 | h1
    · exact Or.inl h1
    · refine Or.inr ?_
      have hshape : (done ++ [m.2]) ++ rest.map Prod.snd =
          done ++ (m :: rest).map Prod.snd := by
        simp
      rw [← hshape]
      exact h1

/-- `filterEntries` keeps the three lists co-indexed, and its path output is a
sublist of the input path list containing no removed path. -/
lemma filterEntries_facts :
    ∀ (fs : List V) (ps : List P) (hs : List (Option H)) (rm : List P),
      (filterEntries fs ps hs rm).features.length =
        (filterEntries fs ps hs rm).paths.length ∧
      (filterEntries fs ps hs rm).hashes.length =
        (filterEntries fs ps hs rm).paths.length ∧
      List.Sublist (filterEntries fs ps hs rm).paths ps ∧
      (∀ x ∈ (filterEntries fs ps hs rm).paths, ¬ x ∈ rm) := by
  intro fs
  induction fs with
  | nil =>
    intro ps hs rm
    refine ⟨rfl, rfl, ?_, by simp [filterEntries]⟩
    show List.Sublist [] ps
    exact List.nil_sublist ps
  | cons f fr ih =>
    intro ps hs rm
    cases ps with
    | nil => exact ⟨rfl, rfl, List.nil_sublist _, by simp [filterEntries]⟩
    | cons p pr =>
      cases hs with
      | nil => exact ⟨rfl, rfl, List.nil_sublist _, by simp [filterEntries]⟩
      | cons q hr =>
        obtain ⟨j1, j2, j3, j4⟩ := ih pr hr rm
        by_cases hp : p ∈ rm
        · have he : filterEntries (f :: fr) (p :: pr) (q :: hr) rm =
              filterEntries fr pr hr rm := by
            show (if p ∈ rm then filterEntries fr pr hr rm else _) = _
            rw [if_pos hp]
          rw [he]
          exact ⟨j1, j2, j3.cons p, j4⟩
        · have he : filterEntries (f :: fr) (p :: pr) (q :: hr) rm =
              ⟨f :: (filterEntries fr pr hr rm).features,
               p :: (filterEntries fr pr hr rm).paths,
               q :: (filterEntries fr pr hr rm).hashes⟩ := by
            show (if p ∈ rm then filterEntries fr pr hr rm else _) = _
            rw [if_neg hp]
          rw [he]
          refine ⟨by simpa using j1, by simpa using j2, j3.cons₂ p, ?_⟩
          intro x hx
          rcases List.mem_cons.mp hx with h1 | h1
          · exact h1 ▸ hp
          · exact j4 x h1

/-- `embedLoop` produces co-indexed lists whose paths form a sublist of the
processed list. -/
lemma embedLoop_facts (embed : P → Option V) (hashOf : P → Option H) :
    ∀ (l : List P),
      (embedLoop embed hashOf l).features.length =
        (embedLoop embed hashOf l).paths.length ∧
      (embedLoop embed hashOf l).hashes.length =
        (embedLoop embed hashOf l).paths.length ∧
      List.Sublist (embedLoop embed hashOf l).paths l := by
  intro l
  induction l with
  | nil => exact ⟨rfl, rfl, List.nil_sublist _⟩
  | cons p rest ih =>
    cases he : embed p with
    | none =>
      have heq : embedLoop embed hashOf (p :: rest) = embedLoop embed hashOf rest := by
        simp [embedLoop, he]
      rw [heq]
      exact ⟨ih.1, ih.2.1, ih.2.2.cons p⟩
    | some v =>
      have heq : embedLoop embed hashOf (p :: rest) =
          ⟨v :: (embedLoop embed hashOf rest).features,
           p :: (embedLoop embed hashOf rest).paths,
           hashOf p :: (embedLoop embed hashOf rest).hashes⟩ := by
        simp [embedLoop, he]
      rw [heq]
      exact ⟨by simpa using ih.1, by simpa using ih.2.1, ih.2.2.cons₂ p⟩

/-- `_process_changes` preserves the store invariant: co-indexed lists of equal
length and duplicate-free paths — provided the change lists have the shape
`_scan_and_compare` guarantees (new and moved-to paths are fresh and pairwise
distinct, modified paths are indexed and duplicate-free). -/
lemma processChanges_invariant (data : IndexData P H V)
    (nw md dl : List P) (mv : List (P × P)) (embed : P → Option V)
    (hashOf : P → Option H)
    (hnd : data.paths.Nodup)
    (hnw_not : ∀ x ∈ nw, ¬ x ∈ data.paths)
    (hmd_in : ∀ x ∈ md, x ∈ data.paths)
    (hmv_not : ∀ y ∈ mv.map Prod.snd, ¬ y ∈ data.paths)
    (hmvnw : (mv.map Prod.snd ++ nw).Nodup)
    (hmd_nodup : md.Nodup) :
    (processChanges data nw md dl mv embed hashOf).1.features.length =
      (processChanges data nw md dl mv embed hashOf).1.paths.length ∧
    (processChanges data nw md dl mv embed hashOf).1.hashes.length =
      (processChanges data nw md dl mv embed hashOf).1.paths.length ∧
    (processChanges data nw md dl mv embed hashOf).1.paths.Nodup := by
  have hmvnw' := List.nodup_append.mp hmvnw
  have hmv_nd : (mv.map Prod.snd).Nodup := hmvnw'.1
  have hnw_nd : nw.Nodup := hmvnw'.2.1
  have hdisj_mvnw : ∀ x ∈ mv.map Prod.snd, ¬ x ∈ nw := hmvnw'.2.2
  have happ := foldl_applyMoveStep_facts (pathToIdx data.paths) data.paths mv
    data.paths [] hnd (fun x hx => Or.inl hx)
    (fun y hy => ⟨hmv_not y hy, List.not_mem_nil y⟩) hmv_nd
  have hpaths1_nodup : (applyMoves data.paths mv).Nodup := happ.1
  have hpaths1_mem : ∀ x ∈ applyMoves data.paths mv,
      x ∈ data.paths ∨ x ∈ mv.map Prod.snd := by
    intro x hx
    rcases happ.2.2 x hx with h1 | h1
    · exact Or.inl h1
    · right
      simpa using h1
  have hfe := filterEntries_facts data.features (applyMoves data.paths mv)
    data.hashes (md ++ dl)
  have hel := embedLoop_facts embed hashOf (nw ++ md)
  have hkept_nodup : (filterEntries data.features (applyMoves data.paths mv)
      data.hashes (md ++ dl)).paths.Nodup :=
    List.Nodup.sublist hfe.2.2.1 hpaths1_nodup
  have hfresh_nodup : (embedLoop embed hashOf (nw ++ md)).paths.Nodup := by
    apply List.Nodup.sublist hel.2.2
    rw [List.nodup_append]
    exact ⟨hnw_nd, hmd_nodup, fun x hx hxm => hnw_not x hx (hmd_in x hxm)⟩
  have hdisjoint : ∀ x ∈ (filterEntries data.features (applyMoves data.paths mv)
      data.hashes (md ++ dl)).paths,
      ¬ x ∈ (embedLoop embed hashOf (nw ++ md)).paths := by
    intro x hkx hfx
    have hxp1 : x ∈ applyMoves data.paths mv := hfe.2.2.1.subset hkx
    have hxnotrm : ¬ x ∈ md ++ dl := hfe.2.2.2 x hkx
    have hxproc : x ∈ nw ++ md := hel.2.2.subset hfx
    rcases List.mem_append.mp hxproc with h1 | h1
    · rcases hpaths1_mem x hxp1 with h2 | h2
      · exact hnw_not x h1 h2
      · exact hdisj_mvnw x h2 h1
    · exact hxnotrm (List.mem_append.mpr (Or.inl h1))
  refine ⟨?_, ?_, ?_⟩
  · show ((filterEntries data.features (applyMoves data.paths mv) data.hashes
        (md ++ dl)).features ++
        (embedLoop embed hashOf (nw ++ md)).features).length =
      ((filterEntries data.features (applyMoves data.paths mv) data.hashes
        (md ++ dl)).paths ++ (embedLoop embed hashOf (nw ++ md)).paths).length
    rw [List.length_append, List.length_append, hfe.1, hel.1]
  · show ((filterEntries data.features (applyMoves data.paths mv) data.hashes
        (md ++ dl)).hashes ++
        (embedLoop embed hashOf (nw ++ md)).hashes).length =
      ((filterEntries data.features (applyMoves data.paths mv) data.hashes
        (md ++ dl)).paths ++ (embedLoop embed hashOf (nw ++ md)).paths).length
    rw [List.length_append, List.length_append, hfe.2.1, hel.2.1]
  · show ((filterEntries data.features (applyMoves data.paths mv) data.hashes
        (md ++ dl)).paths ++ (embedLoop embed hashOf (nw ++ md)).paths).Nodup
    rw [List.nodup_append]
    exact ⟨hkept_nodup, hfresh_nodup, hdisjoint⟩

/-! ## Claim C9: every store `update` saves satisfies the index invariant -/

/-- C9: starting from a loaded store satisfying the index invariant (three
co-indexed lists of equal length, duplicate-free paths) and a duplicate-free
disk scan, any store that `update` passes to `_save_index` satisfies the same
invariant: the features, paths and hashes sequences have equal length and every
path occurs at most once. -/
theorem update_preserves_invariant (data : IndexData P H V) (disk : List P)
    (hashOf : P → Option H) (embed : P → Option V)
    (hlenF : data.features.length = data.paths.length)
    (hlenH : data.hashes.length = data.paths.length)
    (hnd : data.paths.Nodup) (hdiskN : disk.Nodup) :
    ∀ st, (update data disk hashOf embed).saved = some st →
      st.features.length = st.paths.length ∧
      st.hashes.length = st.paths.length ∧
      st.paths.Nodup := by
  intro st hsaved
  have hle : data.paths.length ≤ data.hashes.length := by omega
  have hidx : (data.paths.zip data.hashes).map Prod.fst = data.paths :=
    List.map_fst_zip _ _ hle
  have hkeys : ((data.paths.zip data.hashes).map Prod.fst).Nodup := by
    rw [hidx]
    exact hnd
  simp only [update] at hsaved
  rw [pyDict_eq_self hkeys] at hsaved
  by_cases hch : (scanAndCompare (data.paths.zip data.hashes) disk
      hashOf).trulyNew = [] ∧
    (scanAndCompare (data.paths.zip data.hashes) disk hashOf).modified = [] ∧
    (scanAndCompare (data.paths.zip data.hashes) disk hashOf).trulyDeleted = [] ∧
    (scanAndCompare (data.paths.zip data.hashes) disk hashOf).moved = []
  · rw [if_pos hch] at hsaved
    cases hsaved
  · rw [if_neg hch] at hsaved
    have hst : st = (processChanges data
        (scanAndCompare (data.paths.zip data.hashes) disk hashOf).trulyNew
        (scanAndCompare (data.paths.zip data.hashes) disk hashOf).modified
        (scanAndCompare (data.paths.zip data.hashes) disk hashOf).trulyDeleted
        (scanAndCompare (data.paths.zip data.hashes) disk hashOf).moved
        embed hashOf).1 :=
      (Option.some.inj hsaved).symm
    have hPN_nodup : (disk.filter (fun p =>
        decide (¬ p ∈ (data.paths.zip data.hashes).map Prod.fst))).Nodup :=
      hdiskN.filter _
    have hPN_mem : ∀ x ∈ disk.filter (fun p =>
        decide (¬ p ∈ (data.paths.zip data.hashes).map Prod.fst)),
        ¬ x ∈ data.paths := by
      intro x hx
      have h2 := List.of_mem_filter hx
      rw [hidx] at h2
      simpa using h2
    obtain ⟨f1, f2, f3⟩ := detectMovesLoop_facts hashOf
      (disk.filter (fun p =>
        decide (¬ p ∈ (data.paths.zip data.hashes).map Prod.fst)))
      (((((data.paths.zip data.hashes).map Prod.fst).filter (fun p =>
          decide (¬ p ∈ disk))).foldl
        (fun d p =>
          match pyGet (data.paths.zip data.hashes) p with
          | some (some h) => dinsert d h p
          | _ => d) []))
      [] []
    have hnew_eq : (scanAndCompare (data.paths.zip data.hashes) disk
        hashOf).trulyNew =
        (detectMovesLoop hashOf
          (disk.filter (fun p =>
            decide (¬ p ∈ (data.paths.zip data.hashes).map Prod.fst)))
          ((((data.paths.zip data.hashes).map Prod.fst).filter (fun p =>
              decide (¬ p ∈ disk))).foldl
            (fun d p =>
              match pyGet (data.paths.zip data.hashes) p with
              | some (some h) => dinsert d h p
              | _ => d) []) [] []).2.2 := rfl
    have hmv_eq : (scanAndCompare (data.paths.zip data.hashes) disk
        hashOf).moved =
        (detectMovesLoop hashOf
          (disk.filter (fun p =>
            decide (¬ p ∈ (data.paths.zip data.hashes).map Prod.fst)))
          ((((data.paths.zip data.hashes).map Prod.fst).filter (fun p =>
              decide (¬ p ∈ disk))).foldl
            (fun d p =>
              match pyGet (data.paths.zip data.hashes) p with
              | some (some h) => dinsert d h p
              | _ => d) []) [] []).2.1 := rfl
    have hnw_not : ∀ x ∈ (scanAndCompare (data.paths.zip data.hashes) disk
        hashOf).trulyNew, ¬ x ∈ data.paths := by
      intro x hx
      rw [hnew_eq] at hx
      rcases f2 x hx with h1 | h1
      · cases h1
      · exact hPN_mem x h1
    have hmv_not : ∀ y ∈ (scanAndCompare (data.paths.zip data.hashes) disk
        hashOf).moved.map Prod.snd, ¬ y ∈ data.paths := by
      intro y hy
      rw [hmv_eq] at hy
      rcases f1 y hy with h1 | h1
      · simp at h1
      · exact hPN_mem y h1
    have hmvnw : ((scanAndCompare (data.paths.zip data.hashes) disk
        hashOf).moved.map Prod.snd ++
        (scanAndCompare (data.paths.zip data.hashes) disk hashOf).trulyNew).Nodup := by
      rw [hmv_eq, hnew_eq]
      apply f3 hPN_nodup
      · intro x _
        exact ⟨by simp, by simp⟩
      · simp
    have hmd_in : ∀ x ∈ (scanAndCompare (data.paths.zip data.hashes) disk
        hashOf).modified, x ∈ data.paths := by
      intro x hx
      have h1 : x ∈ disk.filter (fun p =>
          decide (p ∈ (data.paths.zip data.hashes).map Prod.fst)) :=
        List.mem_of_mem_filter hx
      have h2 := List.of_mem_filter h1
      rw [hidx] at h2
      simpa using h2
    have hmd_nodup : (scanAndCompare (data.paths.zip data.hashes) disk
        hashOf).modified.Nodup :=
      (hdiskN.filter _).filter _
    rw [hst]
    exact processChanges_invariant data _ _ _ _ embed hashOf hnd hnw_not hmd_in
      hmv_not hmvnw hmd_nodup

/-- Witness for C9: a one-entry index plus one new file on disk; the saved store
has two co-indexed entries with distinct paths. -/
theorem update_preserves_invariant_witness :
    ((⟨[7], [0], [some 0]⟩ : IndexData (Fin 2) (Fin 2) ℚ).features.length =
      (⟨[7], [0], [some 0]⟩ : IndexData (Fin 2) (Fin 2) ℚ).paths.length) ∧
    ((⟨[7], [0], [some 0]⟩ : IndexData (Fin 2) (Fin 2) ℚ).hashes.length =
      (⟨[7], [0], [some 0]⟩ : IndexData (Fin 2) (Fin 2) ℚ).paths.length) ∧
    (⟨[7], [0], [some 0]⟩ : IndexData (Fin 2) (Fin 2) ℚ).paths.Nodup ∧
    ([0, 1] : List (Fin 2)).Nodup ∧
    ((⟨[7, 51], [0, 1], [some 0, some 1]⟩ :
        IndexData (Fin 2) (Fin 2) ℚ).features.length =
      (⟨[7, 51], [0, 1], [some 0, some 1]⟩ :
        IndexData (Fin 2) (Fin 2) ℚ).paths.length ∧
     (⟨[7, 51], [0, 1], [some 0, some 1]⟩ :
        IndexData (Fin 2) (Fin 2) ℚ).hashes.length =
      (⟨[7, 51], [0, 1], [some 0, some 1]⟩ :
        IndexData (Fin 2) (Fin 2) ℚ).paths.length ∧
     (⟨[7, 51], [0, 1], [some 0, some 1]⟩ :
        IndexData (Fin 2) (Fin 2) ℚ).paths.Nodup) :=
  ⟨by decide, by decide, by decide, by decide,
   update_preserves_invariant
     (⟨[7], [0], [some 0]⟩ : IndexData (Fin 2) (Fin 2) ℚ) [0, 1]
     (fun p => some p) (fun _ => some 51)
     (by decide) (by decide) (by decide) (by decide)
     (⟨[7, 51], [0, 1], [some 0, some 1]⟩ : IndexData (Fin 2) (Fin 2) ℚ)
     (by decide)⟩

end StickerSearch
